import Mathlib

/-!
# OpenMalaria: dosage lookup and the Molineaux statistics harness

A shallow embedding of

* `DosageTable::getMultiplier` (`model/PkPd/LSTMMedicate.h`),
* `MolInfStats` (`unittest/MolineauxInfectionSuite.h`): the constructor, `calc`, `capture`,
  `sort`, the percentile indices of `print` / `write` / `compare`, and the driving loop of
  `testDensities`,
* `CaseManagementCommon::getCommunityCaseFatalityRate`
  (`model/Clinical/CaseManagementCommon.cpp`).

Conventions of the embedding.

* A finite `double` is an exact rational (`ℚ`); comparisons are the exact ones.  Values that
  may be not-a-number or infinite (the stored statistics) have type `Dbl`.  Day numbers and
  counts stored in a `double` or an `int` are stored exactly.
* `size_t` is 64 bits wide.  Where an expression of the source can leave that range the
  model reduces it modulo `2 ^ 64`; day counters of `calc`, bounded by the length of the
  density vector, are plain naturals.
* `std::map<double,double>` is its sequence of entries in iteration order, i.e. by strictly
  increasing key.
* Library functions on `double` data (libm, GSL, `std::sort`) are fields of a record `NumLib`.
* `MolineauxInfection` and `sim` are not among the embedded sources: the members the suite
  uses are fields of a record `Harness`.  `Harness.logged` adds a log of the `update` calls.
* `MolInfStats.calcChk` is `calc` with every array access and `size_t` subtraction checked.
* Loops whose number of iterations is not fixed in advance take a bound on it as their first
  `Nat` argument; the theorems show the bound `calc` passes is never reached, and that the
  driving loops end within any bound that covers the first `update` call returning true.
-/

namespace OM

/-! ## `DosageTable` (model/PkPd/LSTMMedicate.h) -/

namespace util

/-- Exit codes of `util::Error` that the embedded sources name. -/
inductive Error where
  | PkPd
  | XSD
  deriving DecidableEq

/-- The value thrown by `TRACED_EXCEPTION( msg, code )`. -/
structure traced_exception where
  msg : String
  code : Error
  deriving DecidableEq

end util

namespace PkPd

/-- The struct `DosageTable`: `table` lists the entries of the `std::map` in iteration order. -/
structure DosageTable where
  useMass : Bool
  table : List (ℚ × ℚ)

/-- The class invariant of `std::map`: keys are unique and iterated in increasing order. -/
def DosageTable.ordered (t : DosageTable) : Prop :=
  t.table.Pairwise (fun a b => a.1 < b.1)

instance (t : DosageTable) : Decidable t.ordered := by
  unfold DosageTable.ordered; infer_instance

/-- The iterator `table.upper_bound( key )` as a position in iteration order: the first entry
whose key compares greater than `key`; the position `table.length` is `table.end()`. -/
def upper_bound : List (ℚ × ℚ) → ℚ → Nat
  | [], _ => 0
  | e :: rest, key => if key < e.1 then 0 else upper_bound rest key + 1

/-- The member `DosageTable::getMultiplier`. -/
def DosageTable.getMultiplier (t : DosageTable) (key : ℚ) : Except util.traced_exception ℚ :=
  let it := upper_bound t.table key
  if it = t.table.length then
    throw ⟨"bad age/dosage table", util.Error.PkPd⟩
  else
    pure (t.table.getD it (0, 0)).2

end PkPd

/-! ## `MolInfStats` (unittest/MolineauxInfectionSuite.h) -/

namespace UnitTest

/-- A `double` that may be not-a-number or infinite; `fin q` is the finite value `q`. -/
inductive Dbl where
  | nan
  | pinf
  | ninf
  | fin (q : ℚ)
  deriving DecidableEq

/-- The quotient `a / b` of a finite `double` by a non-negative finite `double`, as IEEE 754
defines it at a zero divisor: `0/0` is not-a-number and `a/0` is an infinity. -/
def Dbl.div (a b : ℚ) : Dbl :=
  if b = 0 then (if a = 0 then Dbl.nan else if 0 < a then Dbl.pinf else Dbl.ninf)
  else Dbl.fin (a / b)

/-- The library functions that `MolInfStats` calls on `double` data: `log10` and `pow` of libm,
`gsl_fit_linear x y` (the slope `c1` fitted to the points `(x[i], y[i])`), `gsl_stats_sd data`
(the standard deviation of `data`) and `std::sort` on a vector of `double`. -/
structure NumLib where
  log10 : ℚ → Dbl
  pow : ℚ → Dbl → Dbl
  gsl_fit_linear : List Dbl → List Dbl → Dbl
  gsl_stats_sd : List Dbl → Dbl
  sort : List Dbl → List Dbl

/-- The nine statistic arrays of the class `MolInfStats`. -/
structure MolInfStats where
  init_slope : List Dbl
  log_1st_max : List Dbl
  no_max : List Int
  slope_max : List Dbl
  GM_interv : List Dbl
  SD_log : List Dbl
  prop_pos_1st : List Dbl
  prop_pos_2nd : List Dbl
  last_pos_day : List Dbl
  deriving DecidableEq

/-- The constructor `MolInfStats(size_t N)`: every `double` entry is the quiet NaN, every
`no_max` entry is `0`. -/
def MolInfStats.ctor (N : Nat) : MolInfStats where
  init_slope := List.replicate N Dbl.nan
  log_1st_max := List.replicate N Dbl.nan
  no_max := List.replicate N 0
  slope_max := List.replicate N Dbl.nan
  GM_interv := List.replicate N Dbl.nan
  SD_log := List.replicate N Dbl.nan
  prop_pos_1st := List.replicate N Dbl.nan
  prop_pos_2nd := List.replicate N Dbl.nan
  last_pos_day := List.replicate N Dbl.nan

/-- The locals of `calc` that its first loop updates.  `maxima_t` holds days (stored as
`double` in the source, exactly). -/
structure Scan where
  first_pos : Nat
  last_pos : Nat
  posFirstLocalMax : Nat
  maxima_t : List Nat
  maxima_ld : List Dbl
  deriving DecidableEq

/-- The values of the locals before the first loop of `calc`. -/
def Scan.init : Scan where
  first_pos := 0
  last_pos := 0
  posFirstLocalMax := 0
  maxima_t := []
  maxima_ld := []

/-- The constants `start` and `step` of `calc`. -/
def start : Nat := 0

/-- The sampling stride of `calc`. -/
def step : Nat := 2

/-- The condition under which the first loop of `calc` records `day` as a local maximum. -/
def isLocalMax (dens : List ℚ) (day : Nat) : Prop :=
  day ≥ step ∧ day + step < dens.length ∧ dens.getD day 0 > dens.getD (day - step) 0 ∧
    dens.getD day 0 > dens.getD (day + step) 0

instance (dens : List ℚ) (day : Nat) : Decidable (isLocalMax dens day) := by
  unfold isLocalMax; infer_instance

/-- One iteration of the first loop of `calc`, at `day`. -/
def scanBody (lib : NumLib) (dens : List ℚ) (day : Nat) (s : Scan) : Scan :=
  let s1 : Scan := if s.first_pos = 0 ∧ dens.getD day 0 > 0 then { s with first_pos := day } else s
  let s2 : Scan := if dens.getD day 0 > 0 then { s1 with last_pos := day } else s1
  if isLocalMax dens day then
    { s2 with
      maxima_t := s2.maxima_t ++ [day]
      maxima_ld := s2.maxima_ld ++ [lib.log10 (dens.getD day 0)]
      posFirstLocalMax := if s2.posFirstLocalMax = 0 then day else s2.posFirstLocalMax }
  else s2

/-- The first loop of `calc`, `for( day = ..; day < dens.size(); day += step )`, entered at
`day` with locals `s`.  The first argument bounds the number of iterations. -/
def scanLoop (lib : NumLib) (dens : List ℚ) : Nat → Nat → Scan → Scan
  | 0, _, s => s
  | fuel + 1, day, s =>
    if day < dens.length then scanLoop lib dens fuel (day + step) (scanBody lib dens day s)
    else s

/-- The first loop of `calc` run from `day = start`.  Each iteration advances `day` by two, so
`dens.size()` iterations are never exhausted (`scanLoop_exits`). -/
def scan (lib : NumLib) (dens : List ℚ) : Scan :=
  scanLoop lib dens dens.length start Scan.init

/-- The local `len_init` of `calc`: `(maxima_t[0] - first_pos)/step + 1`, computed in `double`
(both days are multiples of `step`, so the quotient is exact) and converted to `size_t`. -/
def len_init (s : Scan) : Nat :=
  Int.toNat (((s.maxima_t.getD 0 0 : Int) - (s.first_pos : Int)) / (step : Int) + 1)

/-- The array `init_t_logdens` after the loop that fills it: day and log-density interleaved. -/
def init_t_logdens (lib : NumLib) (dens : List ℚ) (s : Scan) : List Dbl :=
  (List.range (len_init s)).foldl
    (fun a i =>
      let day := step * i + s.first_pos
      (a.set (2 * i) (Dbl.fin day)).set (2 * i + 1) (lib.log10 (dens.getD day 0)))
    (List.replicate (len_init s * 2) (Dbl.fin 0))

/-- The `n` entries `a[off], a[off + stride], ...` that a GSL routine reads from an array. -/
def strided (a : List Dbl) (off stride n : Nat) : List Dbl :=
  (List.range n).map (fun i => a.getD (off + i * stride) (Dbl.fin 0))

/-- The locals `gm` and `log_intervals` of `calc` after the loop over consecutive maxima.
`log_intervals` is constructed with `maxima_t.size() - 1` zero entries and the loop appends
to it with `push_back`. -/
def intervalLoop (lib : NumLib) (maxima_t : List Nat) : ℚ × List Dbl :=
  (List.range' 1 (maxima_t.length - 1)).foldl
    (fun acc i =>
      let interval : ℚ := (maxima_t.getD i 0 : ℚ) - (maxima_t.getD (i - 1) 0 : ℚ)
      (acc.1 * interval, acc.2 ++ [lib.log10 interval]))
    (1, List.replicate (maxima_t.length - 1) (Dbl.fin 0))

/-- The local `mid_pos` of `calc`. -/
def mid_pos (s : Scan) : Nat :=
  let mid_pos := (s.first_pos + s.last_pos) / 2
  start + ((mid_pos - start) / step) * step

/-- The detection limit `detect_lim` of `calc`. -/
def detect_lim : ℚ := 10

/-- A loop `for( day = ..; day <= last; day += step )` of `calc` counting in `pos_obs` the days
whose density exceeds `detect_lim`.  The first argument bounds the number of iterations. -/
def countLoop (dens : List ℚ) (last : Nat) : Nat → Nat → ℚ → ℚ
  | 0, _, pos_obs => pos_obs
  | fuel + 1, day, pos_obs =>
    if day ≤ last then
      countLoop dens last fuel (day + step)
        (if dens.getD day 0 > detect_lim then pos_obs + 1 else pos_obs)
    else pos_obs

/-- The days that a loop `for( day = ..; day <= last; day += step )` of `calc` visits, in
order: the days at which `countLoop` reads `dens`. -/
def countLoopDays (last : Nat) : Nat → Nat → List Nat
  | 0, _ => []
  | fuel + 1, day =>
    if day ≤ last then day :: countLoopDays last fuel (day + step) else []

/-- The function `MolInfStats::calc( n, dens )`, as a transformer of the statistic arrays.
Its `size_t` subtractions are written with the subtraction of `Nat`: in each the subtrahend
is the smaller value (`scan_first_mid_last`). -/
def MolInfStats.calc (lib : NumLib) (st : MolInfStats) (n : Nat) (dens : List ℚ) :
    MolInfStats :=
  let s := scan lib dens
  let st := { st with last_pos_day := List.set st.last_pos_day n (Dbl.fin (s.last_pos - s.first_pos : Nat)) }
  let st := { st with no_max := List.set st.no_max n (s.maxima_t.length : Int) }
  if s.maxima_t.length = 0 then st
  else
    let st := { st with log_1st_max := List.set st.log_1st_max n (s.maxima_ld.getD 0 Dbl.nan) }
    let a := init_t_logdens lib dens s
    let c1 := lib.gsl_fit_linear (strided a 0 2 (len_init s)) (strided a 1 2 (len_init s))
    let st := { st with init_slope := List.set st.init_slope n c1 }
    let c1 := lib.gsl_fit_linear (s.maxima_t.map (fun t => Dbl.fin t)) s.maxima_ld
    let st := { st with slope_max := List.set st.slope_max n c1 }
    let gl := intervalLoop lib s.maxima_t
    let gm := gl.1
    let log_intervals := gl.2
    let st := { st with GM_interv := List.set st.GM_interv n (lib.pow gm (Dbl.div 1 (s.maxima_t.length - 1 : Nat))) }
    let st := { st with SD_log := List.set st.SD_log n (lib.gsl_stats_sd log_intervals) }
    let mid := mid_pos s
    let pos_obs := countLoop dens mid (mid + 1) s.first_pos 0
    let st := { st with prop_pos_1st := List.set st.prop_pos_1st n (Dbl.div pos_obs ((mid - s.first_pos) / step + 1 : Nat)) }
    let pos_obs := countLoop dens s.last_pos (s.last_pos + 1) (mid + step) 0
    { st with prop_pos_2nd := List.set st.prop_pos_2nd n (Dbl.div pos_obs ((s.last_pos - mid) / step : Nat)) }

/-! ### `calc` with checked array accesses and subtractions

The same function as `MolInfStats.calc`, in which every array read and write and every
`size_t` subtraction is checked: the result is `none` as soon as an index is outside the
bounds of its array or a subtraction would wrap. -/

/-- An array read `a[i]`: `none` when `i` is outside the bounds of `a`. -/
def rd {α : Type} (a : List α) (i : Nat) : Option α := a[i]?

/-- An array write `a[i] = v`: `none` when `i` is outside the bounds of `a`. -/
def wr {α : Type} (a : List α) (i : Nat) (v : α) : Option (List α) :=
  if i < a.length then some (List.set a i v) else none

/-- A `size_t` subtraction `a - b`: `none` when it would wrap. -/
def usub (a b : Nat) : Option Nat := if b ≤ a then some (a - b) else none

/-- The reads `a[i]` for the listed indices, as a library routine makes them. -/
def readAll {α : Type} (a : List α) : List Nat → Option (List α)
  | [] => some []
  | i :: rest => do
    let v ← rd a i
    let vs ← readAll a rest
    pure (v :: vs)

/-- One iteration of the first loop of `calc`, with checked accesses. -/
def scanBodyChk (lib : NumLib) (dens : List ℚ) (day : Nat) (s : Scan) : Option Scan := do
  let d ← rd dens day
  let s1 : Scan := if s.first_pos = 0 ∧ d > 0 then { s with first_pos := day } else s
  let s2 : Scan := if d > 0 then { s1 with last_pos := day } else s1
  if day ≥ step ∧ day + step < dens.length then do
    let before ← usub day step
    let b ← rd dens before
    if d > b then do
      let a ← rd dens (day + step)
      if d > a then
        pure { s2 with
          maxima_t := s2.maxima_t ++ [day]
          maxima_ld := s2.maxima_ld ++ [lib.log10 d]
          posFirstLocalMax := if s2.posFirstLocalMax = 0 then day else s2.posFirstLocalMax }
      else pure s2
    else pure s2
  else pure s2

/-- The first loop of `calc`, with checked accesses. -/
def scanLoopChk (lib : NumLib) (dens : List ℚ) : Nat → Nat → Scan → Option Scan
  | 0, _, s => some s
  | fuel + 1, day, s =>
    if day < dens.length then do
      let s1 ← scanBodyChk lib dens day s
      scanLoopChk lib dens fuel (day + step) s1
    else some s

/-- The loop of `calc` that fills `init_t_logdens`, with checked accesses, over the listed
values of `i`. -/
def initLoopChk (lib : NumLib) (dens : List ℚ) (first_pos : Nat) :
    List Nat → List Dbl → Option (List Dbl)
  | [], a => some a
  | i :: rest, a => do
    let day := step * i + first_pos
    let a1 ← wr a (2 * i) (Dbl.fin day)
    let v ← rd dens day
    let a2 ← wr a1 (2 * i + 1) (lib.log10 v)
    initLoopChk lib dens first_pos rest a2

/-- The loop of `calc` over consecutive maxima, with checked accesses, over the listed values
of `i`. -/
def intervalLoopChk (lib : NumLib) (maxima_t : List Nat) :
    List Nat → ℚ × List Dbl → Option (ℚ × List Dbl)
  | [], acc => some acc
  | i :: rest, acc => do
    let a ← rd maxima_t i
    let before ← usub i 1
    let b ← rd maxima_t before
    let interval : ℚ := (a : ℚ) - (b : ℚ)
    intervalLoopChk lib maxima_t rest (acc.1 * interval, acc.2 ++ [lib.log10 interval])

/-- A counting loop of `calc`, with checked accesses. -/
def countLoopChk (dens : List ℚ) (last : Nat) : Nat → Nat → ℚ → Option ℚ
  | 0, _, pos_obs => some pos_obs
  | fuel + 1, day, pos_obs =>
    if day ≤ last then do
      let d ← rd dens day
      countLoopChk dens last fuel (day + step) (if d > detect_lim then pos_obs + 1 else pos_obs)
    else some pos_obs

/-- The value `calc` stores in `init_slope[n]`, with checked accesses. -/
def initSlopeChk (lib : NumLib) (dens : List ℚ) (s : Scan) : Option Dbl := do
  let m0 ← rd s.maxima_t 0
  let diff ← usub m0 s.first_pos
  let len_init := diff / step + 1
  let a ← initLoopChk lib dens s.first_pos (List.range len_init)
    (List.replicate (len_init * 2) (Dbl.fin 0))
  let x ← readAll a ((List.range len_init).map (fun i => 0 + i * 2))
  let y ← readAll a ((List.range len_init).map (fun i => 1 + i * 2))
  pure (lib.gsl_fit_linear x y)

/-- The value `calc` stores in `slope_max[n]`, with checked accesses. -/
def slopeMaxChk (lib : NumLib) (s : Scan) : Option Dbl := do
  let x ← readAll s.maxima_t (List.range s.maxima_t.length)
  let y ← readAll s.maxima_ld (List.range s.maxima_t.length)
  pure (lib.gsl_fit_linear (x.map (fun t => Dbl.fin t)) y)

/-- The values `calc` stores in `GM_interv[n]` and `SD_log[n]`, with checked accesses. -/
def intervalsChk (lib : NumLib) (s : Scan) : Option (Dbl × Dbl) := do
  let size1 ← usub s.maxima_t.length 1
  let gl ← intervalLoopChk lib s.maxima_t (List.range' 1 size1)
    (1, List.replicate size1 (Dbl.fin 0))
  let data ← readAll gl.2 (List.range gl.2.length)
  pure (lib.pow gl.1 (Dbl.div 1 (size1 : Nat)), lib.gsl_stats_sd data)

/-- The values `calc` stores in `prop_pos_1st[n]` and `prop_pos_2nd[n]`, with checked
accesses. -/
def propPosChk (dens : List ℚ) (s : Scan) : Option (Dbl × Dbl) := do
  let mid0 := (s.first_pos + s.last_pos) / 2
  let off ← usub mid0 start
  let mid := start + (off / step) * step
  let pos1 ← countLoopChk dens mid (mid + 1) s.first_pos 0
  let den1 ← usub mid s.first_pos
  let pos2 ← countLoopChk dens s.last_pos (s.last_pos + 1) (mid + step) 0
  let den2 ← usub s.last_pos mid
  pure (Dbl.div pos1 ((den1 / step + 1 : Nat) : ℚ), Dbl.div pos2 ((den2 / step : Nat) : ℚ))

/-- The part of `calc` after its early return, with checked accesses. -/
def calcTailChk (lib : NumLib) (st : MolInfStats) (n : Nat) (dens : List ℚ) (s : Scan) :
    Option MolInfStats := do
  let ld0 ← rd s.maxima_ld 0
  let a1 ← wr st.log_1st_max n ld0
  let c1 ← initSlopeChk lib dens s
  let a2 ← wr st.init_slope n c1
  let c1 ← slopeMaxChk lib s
  let a3 ← wr st.slope_max n c1
  let gs ← intervalsChk lib s
  let a4 ← wr st.GM_interv n gs.1
  let a5 ← wr st.SD_log n gs.2
  let pp ← propPosChk dens s
  let a6 ← wr st.prop_pos_1st n pp.1
  let a7 ← wr st.prop_pos_2nd n pp.2
  pure { st with
    log_1st_max := a1, init_slope := a2, slope_max := a3, GM_interv := a4, SD_log := a5,
    prop_pos_1st := a6, prop_pos_2nd := a7 }

/-- The function `MolInfStats::calc( n, dens )` with checked accesses and subtractions. -/
def MolInfStats.calcChk (lib : NumLib) (st : MolInfStats) (n : Nat) (dens : List ℚ) :
    Option MolInfStats := do
  let s ← scanLoopChk lib dens dens.length start Scan.init
  let span ← usub s.last_pos s.first_pos
  let a8 ← wr st.last_pos_day n (Dbl.fin (span : Nat))
  let a9 ← wr st.no_max n (s.maxima_t.length : Int)
  let st1 : MolInfStats := { st with last_pos_day := a8, no_max := a9 }
  if s.maxima_t.length = 0 then pure st1
  else calcTailChk lib st1 n dens s

/-- A statistic set whose nine arrays all have size `N`, as the constructor makes them. -/
def MolInfStats.sized (st : MolInfStats) (N : Nat) : Prop :=
  st.init_slope.length = N ∧ st.log_1st_max.length = N ∧ st.no_max.length = N ∧
  st.slope_max.length = N ∧ st.GM_interv.length = N ∧ st.SD_log.length = N ∧
  st.prop_pos_1st.length = N ∧ st.prop_pos_2nd.length = N ∧ st.last_pos_day.length = N

instance (st : MolInfStats) (N : Nat) : Decidable (st.sized N) := by
  unfold MolInfStats.sized; infer_instance

/-- Rounding to the nearest integer, halves up. -/
def roundHalfUp (x : ℚ) : ℤ := ⌊x + 1 / 2⌋

/-! ### Loop invariants of `calc` -/

/-- What the first loop has recorded in `maxima_t` when it is about to visit `d`. -/
def MaximaInv (dens : List ℚ) (d : Nat) (s : Scan) : Prop :=
  d % 2 = 0 ∧ s.maxima_t.Sorted (fun a b => a < b) ∧
    ∀ x, x ∈ s.maxima_t ↔ x % 2 = 0 ∧ x < d ∧ isLocalMax dens x

/-- What the first loop knows of `first_pos` and `last_pos` when it is about to visit `d`:
`last_pos` is the last sampled day before `d` with positive density (`0` if there is none),
`first_pos` is the first such day other than day `0` (`0` if there is none). -/
def PosInv (dens : List ℚ) (d : Nat) (s : Scan) : Prop :=
  d % 2 = 0 ∧
  (∀ x, x % 2 = 0 → x < d → 0 < dens.getD x 0 → x ≤ s.last_pos) ∧
  (s.last_pos = 0 ∨ (s.last_pos % 2 = 0 ∧ s.last_pos < d ∧ 0 < dens.getD s.last_pos 0)) ∧
  (∀ x, x % 2 = 0 → 0 < x → x < d → 0 < dens.getD x 0 → 0 < s.first_pos ∧ s.first_pos ≤ x) ∧
  (s.first_pos = 0 ∨ (s.first_pos % 2 = 0 ∧ s.first_pos < d ∧ 0 < dens.getD s.first_pos 0)) ∧
  s.first_pos ≤ s.last_pos

/-! ### Percentile indices of `print`, `write` and `compare` -/

/-- The number of values of `size_t`. -/
def SIZE_T : Nat := 2 ^ 64

/-- The indices `med`, `q1`, `q3`, `c5`, `c95` computed at the head of `print`, `write` and
`compare`. -/
structure PctIdx where
  med : Nat
  q1 : Nat
  q3 : Nat
  c5 : Nat
  c95 : Nat
  deriving DecidableEq

/-- The index computation of `MolInfStats::print`, in `size_t` arithmetic. -/
def MolInfStats.print_idx (st : MolInfStats) : PctIdx :=
  let last := (st.init_slope.length + SIZE_T - 1) % SIZE_T
  let med := (last + 1) % SIZE_T / 2
  let q1 := (last + 2) % SIZE_T / 4
  let q3 := (last * 3 + 2) % SIZE_T / 4
  let c5 := (last + 10) % SIZE_T / 20
  let c95 := (last * 19 + 10) % SIZE_T / 20
  { med := med, q1 := q1, q3 := q3, c5 := c5, c95 := c95 }

/-- The index computation of `MolInfStats::write`, in `size_t` arithmetic. -/
def MolInfStats.write_idx (st : MolInfStats) : PctIdx :=
  let last := (st.init_slope.length + SIZE_T - 1) % SIZE_T
  let med := (last + 1) % SIZE_T / 2
  let q1 := (last + 2) % SIZE_T / 4
  let q3 := (last * 3 + 2) % SIZE_T / 4
  let c5 := (last + 10) % SIZE_T / 20
  let c95 := (last * 19 + 10) % SIZE_T / 20
  { med := med, q1 := q1, q3 := q3, c5 := c5, c95 := c95 }

/-- The index computation of `MolInfStats::compare`, in `size_t` arithmetic. -/
def MolInfStats.compare_idx (st : MolInfStats) : PctIdx :=
  let last := (st.init_slope.length + SIZE_T - 1) % SIZE_T
  let med := (last + 1) % SIZE_T / 2
  let q1 := (last + 2) % SIZE_T / 4
  let q3 := (last * 3 + 2) % SIZE_T / 4
  let c5 := (last + 10) % SIZE_T / 20
  let c95 := (last * 19 + 10) % SIZE_T / 20
  { med := med, q1 := q1, q3 := q3, c5 := c5, c95 := c95 }

/-- The comparison `a <= b` of two `double` values (IEEE 754): false when either is
not-a-number. -/
def Dbl.le : Dbl → Dbl → Bool
  | Dbl.nan, _ => false
  | _, Dbl.nan => false
  | Dbl.ninf, _ => true
  | _, Dbl.pinf => true
  | Dbl.pinf, _ => false
  | Dbl.fin _, Dbl.ninf => false
  | Dbl.fin a, Dbl.fin b => decide (a ≤ b)

/-- The five values `s[c5]`, `s[q1]`, `s[med]`, `s[q3]`, `s[c95]` that the macro
`MOL_WRITE_STAT( s )` of `write` streams after the name of `s`, in that order. -/
def MOL_WRITE_STAT {α : Type} (idx : PctIdx) (s : List α) (d : α) : List α :=
  [s.getD idx.c5 d, s.getD idx.q1 d, s.getD idx.med d, s.getD idx.q3 d, s.getD idx.c95 d]

/-! ### `capture` -/

/-- The members of `sim` and of `MolineauxInfection` that the suite uses.  A value of `σ` is
the state those members read and update: the infection under test together with the
process-wide random generator. -/
structure Harness (σ : Type) where
  /-- The function `sim::ts0()`. -/
  ts0 : Int
  /-- The function `sim::oneDay()`. -/
  oneDay : Int
  /-- The static member `Infection::latentP`. -/
  latentP : Int
  /-- The expression `new MolineauxInfection (0xFFFFFFFF)`. -/
  construct : σ → σ
  /-- The call `infection->update( 1.0, now )`: its result and the state it leaves. -/
  update : σ → Int → Bool × σ
  /-- The call `infection->getDensity()`. -/
  getDensity : σ → ℚ
  /-- The member `infection->m_startDate`. -/
  m_startDate : σ → Int

/-- The loop `while( !infection->update( 1.0, now ) ){ dens.push_back( .. ); now += .. }` of
`capture`.  The first argument bounds the number of `update` calls; `none` means the bound
was reached before `update` returned true. -/
def captureLoop {σ : Type} (H : Harness σ) : Nat → σ → Int → List ℚ → Option (List ℚ × σ)
  | 0, _, _, _ => none
  | fuel + 1, inf, now, dens =>
    let r := H.update inf now
    if !r.1 then captureLoop H fuel r.2 (now + H.oneDay) (dens ++ [H.getDensity r.2])
    else some (dens, r.2)

/-- The state after `k` successive `update` calls, the first at time `now` and each later one
a day after the previous. -/
def nthUpdate {σ : Type} (H : Harness σ) : Nat → σ → Int → σ
  | 0, inf, _ => inf
  | k + 1, inf, now => nthUpdate H k (H.update inf now).2 (now + H.oneDay)

/-- The result of the `update` call number `i` (counting from `0`) in a sequence of calls on
consecutive days that starts at time `now`. -/
def nthResult {σ : Type} (H : Harness σ) (inf : σ) (now : Int) (i : Nat) : Bool :=
  (H.update (nthUpdate H i inf now) (now + (i : Int) * H.oneDay)).1

/-- The density series that one iteration of the `for` loop of `capture` hands to `calc`,
and the state after the run. -/
def captureDens {σ : Type} (H : Harness σ) (fuel : Nat) (w : σ) : Option (List ℚ × σ) :=
  captureLoop H fuel (H.construct w) H.ts0 []

/-- The function `MolInfStats::sort`. -/
def MolInfStats.sort (lib : NumLib) (st : MolInfStats) : MolInfStats where
  init_slope := lib.sort st.init_slope
  log_1st_max := lib.sort st.log_1st_max
  no_max := st.no_max.insertionSort (fun a b => a ≤ b)
  slope_max := lib.sort st.slope_max
  GM_interv := lib.sort st.GM_interv
  SD_log := lib.sort st.SD_log
  prop_pos_1st := lib.sort st.prop_pos_1st
  prop_pos_2nd := lib.sort st.prop_pos_2nd
  last_pos_day := lib.sort st.last_pos_day

/-- The `for( run = 0; run < N; ++run )` loop of `capture` over the listed runs. -/
def captureRuns {σ : Type} (lib : NumLib) (H : Harness σ) (fuel : Nat) :
    List Nat → MolInfStats → σ → Option (MolInfStats × σ)
  | [], st, w => some (st, w)
  | run :: runs, st, w =>
    match captureDens H fuel w with
    | none => none
    | some (dens, w1) => captureRuns lib H fuel runs (st.calc lib run dens) w1

/-- The function `MolInfStats::capture`; `fuel` bounds the `update` calls of each run. -/
def MolInfStats.capture {σ : Type} (lib : NumLib) (H : Harness σ) (fuel : Nat)
    (st : MolInfStats) (w : σ) : Option (MolInfStats × σ) :=
  match captureRuns lib H fuel (List.range st.init_slope.length) st w with
  | none => none
  | some (st1, w1) => some (st1.sort lib, w1)

/-! ### The driving loop of `testDensities` -/

/-- What `testDensities` has done when control leaves its `do .. while` loop: the state left
by the last `update` call, the counter `day`, the pairs of values handed to `TS_ASSERT_APPROX`,
and whether the test was aborted by a failed `ETS_ASSERT_LESS_THAN`. -/
structure DensitiesRun (σ : Type) where
  inf : σ
  day : Nat
  compared : List (ℚ × ℚ)
  aborted : Bool

/-- The loop `do{ extinct = infection->update( 1.0, now ); .. now += sim::oneDay(); }
while( !extinct )` of `testDensities`, where `dens` is the vector read from the file.
`abortTestOnFail` is the CxxTest setting that makes a failed assertion leave the test; when it
is off a failed `ETS_ASSERT_LESS_THAN` is only reported.  The first `Nat` bounds the number of
`update` calls; `none` means the bound was reached before the loop ended. -/
def testDensitiesLoop {σ : Type} (H : Harness σ) (abortTestOnFail : Bool) (dens : List ℚ) :
    Nat → σ → Int → Nat → List (ℚ × ℚ) → Option (DensitiesRun σ)
  | 0, _, _, _, _ => none
  | fuel + 1, inf, now, day, compared =>
    let r := H.update inf now
    let extinct := r.1
    let age := now - H.m_startDate r.2 - H.latentP
    if age ≥ 0 then
      if ¬ day < dens.length ∧ abortTestOnFail = true then
        some { inf := r.2, day := day, compared := compared, aborted := true }
      else
        let compared := compared ++ [(H.getDensity r.2, dens.getD day 0)]
        let day := day + 1
        if !extinct then testDensitiesLoop H abortTestOnFail dens fuel r.2 (now + H.oneDay) day compared
        else some { inf := r.2, day := day, compared := compared, aborted := false }
    else
      if !extinct then testDensitiesLoop H abortTestOnFail dens fuel r.2 (now + H.oneDay) day compared
      else some { inf := r.2, day := day, compared := compared, aborted := false }

/-- The part of `testDensities` from the construction of the infection to the end of its
loop. -/
def testDensities {σ : Type} (H : Harness σ) (abortTestOnFail : Bool) (dens : List ℚ)
    (fuel : Nat) (w : σ) : Option (DensitiesRun σ) :=
  testDensitiesLoop H abortTestOnFail dens fuel (H.construct w) H.ts0 0 []

/-- The harness `H` with a log of the `update` calls made on the infection under test: each
call appends the time it was passed and the result it returned; constructing an infection
starts an empty log. -/
def Harness.logged {σ : Type} (H : Harness σ) : Harness (σ × List (Int × Bool)) where
  ts0 := H.ts0
  oneDay := H.oneDay
  latentP := H.latentP
  construct := fun w => (H.construct w.1, [])
  update := fun w now => ((H.update w.1 now).1, ((H.update w.1 now).2, w.2 ++ [(now, (H.update w.1 now).1)]))
  getDensity := fun w => H.getDensity w.1
  m_startDate := fun w => H.m_startDate w.1

/-- A `NumLib` with which to evaluate `calc` where the results of the library calls do not
matter: each numerical function returns not-a-number, `sort` returns its argument. -/
def nanLib : NumLib where
  log10 := fun _ => Dbl.nan
  pow := fun _ _ => Dbl.nan
  gsl_fit_linear := fun _ _ => Dbl.nan
  gsl_stats_sd := fun _ => Dbl.nan
  sort := fun l => l

/-- An infection on which to run the loop of `capture`: inoculated at `ts0 = 0`, latent for
`2` days (density `0`), then of density `8` and `4` on the next two days, and reported extinct
by the `update` call of day `4`.  The state is the current density. -/
def latentInfection : Harness ℚ where
  ts0 := 0
  oneDay := 1
  latentP := 2
  construct := fun _ => 0
  update := fun _ now =>
    if now - 0 - 2 < 0 then (false, 0)
    else if now - 0 - 2 = 0 then (false, 8)
    else if now - 0 - 2 = 1 then (false, 4)
    else (true, 0)
  getDensity := fun inf => inf
  m_startDate := fun _ => 0

end UnitTest

/-! ## `CaseManagementCommon` (model/Clinical/CaseManagementCommon.cpp) -/

namespace Clinical

/-- The function `CaseManagementCommon::getCommunityCaseFatalityRate`, over an ordered field
`K` of exact numbers.  Its first argument is the static member `_oddsRatioThreshold`. -/
def getCommunityCaseFatalityRate {K : Type} [LinearOrderedField K]
    (_oddsRatioThreshold : K) (caseFatalityRatio : K) : K :=
  let x := caseFatalityRatio * _oddsRatioThreshold
  x / (1 - caseFatalityRatio + x)

end Clinical

/-! ## Lemmas on `upper_bound` -/

namespace PkPd

theorem upper_bound_le (tb : List (ℚ × ℚ)) (key : ℚ) : upper_bound tb key ≤ tb.length := by
  induction tb with
  | nil => simp [upper_bound]
  | cons e rest ih =>
    simp only [upper_bound]
    split
    · exact Nat.zero_le _
    · simpa using ih

/-- Below the returned position no key is greater than the query. -/
theorem upper_bound_before (tb : List (ℚ × ℚ)) (key : ℚ) (i : Nat)
    (hi : i < upper_bound tb key) : ¬ key < (tb.getD i (0, 0)).1 := by
  induction tb generalizing i with
  | nil => simp [upper_bound] at hi
  | cons e rest ih =>
    simp only [upper_bound] at hi
    split at hi
    · exact absurd hi (Nat.not_lt_zero _)
    · rename_i hlt
      cases i with
      | zero => simpa using hlt
      | succ j => simpa using ih j (by omega)

/-- At the returned position, when it is not `end()`, the key is greater than the query. -/
theorem upper_bound_at (tb : List (ℚ × ℚ)) (key : ℚ)
    (h : upper_bound tb key < tb.length) : key < (tb.getD (upper_bound tb key) (0, 0)).1 := by
  induction tb with
  | nil => simp at h
  | cons e rest ih =>
    simp only [upper_bound] at h ⊢
    split
    · simpa
    · rename_i hlt
      simp only [hlt, if_false, List.length_cons] at h
      simpa using ih (by omega)

/-- The position is `end()` exactly when no key is greater than the query. -/
theorem upper_bound_eq_length_iff (tb : List (ℚ × ℚ)) (key : ℚ) :
    upper_bound tb key = tb.length ↔ ∀ e ∈ tb, ¬ key < e.1 := by
  induction tb with
  | nil => simp [upper_bound]
  | cons e rest ih =>
    simp only [upper_bound, List.length_cons, List.mem_cons, forall_eq_or_imp]
    split
    · rename_i hlt
      constructor
      · intro h; omega
      · intro h; exact absurd hlt h.1
    · rename_i hlt
      constructor
      · intro h; exact ⟨hlt, ih.mp (by omega)⟩
      · intro h; have := ih.mpr h.2; omega

/-- In an ordered table every entry at or after position `i` has a key at least that of
entry `i`. -/
theorem ordered_getD_le (tb : List (ℚ × ℚ)) (hs : tb.Pairwise (fun a b => a.1 < b.1))
    (i j : Nat) (hij : i ≤ j) (hj : j < tb.length) :
    (tb.getD i (0, 0)).1 ≤ (tb.getD j (0, 0)).1 := by
  rcases Nat.eq_or_lt_of_le hij with h | h
  · subst h; exact le_refl _
  · have hi : i < tb.length := by omega
    have := List.pairwise_iff_get.mp hs ⟨i, hi⟩ ⟨j, hj⟩ h
    simp only [List.getD_eq_getElem?_getD, List.getElem?_eq_getElem hi,
      List.getElem?_eq_getElem hj, Option.getD_some]
    exact le_of_lt (by simpa using this)

/-- In an ordered table, keys strictly increase with the position. -/
theorem ordered_getD_lt (tb : List (ℚ × ℚ)) (hs : tb.Pairwise (fun a b => a.1 < b.1))
    (i j : Nat) (hij : i < j) (hj : j < tb.length) :
    (tb.getD i (0, 0)).1 < (tb.getD j (0, 0)).1 := by
  have hi : i < tb.length := by omega
  have := List.pairwise_iff_get.mp hs ⟨i, hi⟩ ⟨j, hj⟩ hij
  simp only [List.getD_eq_getElem?_getD, List.getElem?_eq_getElem hi,
    List.getElem?_eq_getElem hj, Option.getD_some]
  simpa using this

/-- Membership in a list, read through `getD`. -/
theorem mem_iff_getD (tb : List (ℚ × ℚ)) (e : ℚ × ℚ) :
    e ∈ tb ↔ ∃ i, i < tb.length ∧ tb.getD i (0, 0) = e := by
  constructor
  · intro h
    obtain ⟨i, hi, rfl⟩ := List.getElem_of_mem h
    exact ⟨i, hi, by simp [List.getD_eq_getElem?_getD, List.getElem?_eq_getElem hi]⟩
  · rintro ⟨i, hi, rfl⟩
    simp only [List.getD_eq_getElem?_getD, List.getElem?_eq_getElem hi, Option.getD_some]
    exact List.getElem_mem hi

/-- In an ordered table the position returned for a query equal to the key of entry `i` is
`i + 1`. -/
theorem upper_bound_at_key (tb : List (ℚ × ℚ)) (hs : tb.Pairwise (fun a b => a.1 < b.1))
    (i : Nat) (hi : i < tb.length) : upper_bound tb (tb.getD i (0, 0)).1 = i + 1 := by
  have hle := upper_bound_le tb (tb.getD i (0, 0)).1
  rcases Nat.lt_trichotomy (upper_bound tb (tb.getD i (0, 0)).1) (i + 1) with h | h | h
  · have h1 := upper_bound_at tb (tb.getD i (0, 0)).1 (by omega)
    have h2 := ordered_getD_le tb hs (upper_bound tb (tb.getD i (0, 0)).1) i (by omega) hi
    exact absurd h1 (not_lt.mpr h2)
  · exact h
  · have h1 := upper_bound_before tb (tb.getD i (0, 0)).1 (i + 1) h
    have h2 := ordered_getD_lt tb hs i (i + 1) (Nat.lt_succ_self i) (by omega)
    exact absurd h2 h1

/-- The throwing branch of `getMultiplier`. -/
theorem getMultiplier_of_end (t : DosageTable) (key : ℚ)
    (h : upper_bound t.table key = t.table.length) :
    t.getMultiplier key = Except.error ⟨"bad age/dosage table", util.Error.PkPd⟩ := by
  unfold DosageTable.getMultiplier
  simp only [h, if_true]
  rfl

/-- The returning branch of `getMultiplier`. -/
theorem getMultiplier_of_ne_end (t : DosageTable) (key : ℚ)
    (h : upper_bound t.table key ≠ t.table.length) :
    t.getMultiplier key = Except.ok (t.table.getD (upper_bound t.table key) (0, 0)).2 := by
  unfold DosageTable.getMultiplier
  simp only [h, if_false]
  rfl

/-! ## Claims on `DosageTable::getMultiplier` -/

/-- C1. On a table with the `std::map` ordering, `getMultiplier` returns the multiplier stored
under the smallest table key strictly greater than the query key whenever some table key is
strictly greater; when no table key is strictly greater (the empty table included) it returns
no value and throws the traced exception "bad age/dosage table" of kind `util::Error::PkPd`. -/
theorem getMultiplier_upper_bound (t : DosageTable) (hs : t.ordered) (key : ℚ) :
    ((∃ e ∈ t.table, key < e.1) →
      ∃ e ∈ t.table, key < e.1 ∧ (∀ e' ∈ t.table, key < e'.1 → e.1 ≤ e'.1) ∧
        t.getMultiplier key = Except.ok e.2) ∧
    ((∀ e ∈ t.table, ¬ key < e.1) →
      t.getMultiplier key = Except.error ⟨"bad age/dosage table", util.Error.PkPd⟩) := by
  constructor
  · intro hex
    have hne : upper_bound t.table key ≠ t.table.length := by
      intro h
      obtain ⟨e, he, hlt⟩ := hex
      exact (upper_bound_eq_length_iff t.table key).mp h e he hlt
    have hlt : upper_bound t.table key < t.table.length :=
      lt_of_le_of_ne (upper_bound_le _ _) hne
    refine ⟨t.table.getD (upper_bound t.table key) (0, 0), ?_, upper_bound_at _ _ hlt, ?_, ?_⟩
    · exact (mem_iff_getD _ _).mpr ⟨_, hlt, rfl⟩
    · intro e' he' hk
      obtain ⟨j, hj, rfl⟩ := (mem_iff_getD _ _).mp he'
      have hij : upper_bound t.table key ≤ j := by
        by_contra hcon
        exact upper_bound_before t.table key j (by omega) hk
      exact ordered_getD_le t.table hs _ j hij hj
    · exact getMultiplier_of_ne_end t key hne
  · intro hall
    exact getMultiplier_of_end t key ((upper_bound_eq_length_iff t.table key).mpr hall)

/-- Witness for C1: the table `0 ↦ 1, 5 ↦ 2, 12 ↦ 3` queried at `5`. -/
theorem getMultiplier_upper_bound_witness :
    (DosageTable.mk false [(0, 1), (5, 2), (12, 3)]).ordered ∧
    (((∃ e ∈ (DosageTable.mk false [(0, 1), (5, 2), (12, 3)]).table, (5 : ℚ) < e.1) →
      ∃ e ∈ (DosageTable.mk false [(0, 1), (5, 2), (12, 3)]).table, (5 : ℚ) < e.1 ∧
        (∀ e' ∈ (DosageTable.mk false [(0, 1), (5, 2), (12, 3)]).table,
          (5 : ℚ) < e'.1 → e.1 ≤ e'.1) ∧
        (DosageTable.mk false [(0, 1), (5, 2), (12, 3)]).getMultiplier 5 = Except.ok e.2) ∧
    ((∀ e ∈ (DosageTable.mk false [(0, 1), (5, 2), (12, 3)]).table, ¬ (5 : ℚ) < e.1) →
      (DosageTable.mk false [(0, 1), (5, 2), (12, 3)]).getMultiplier 5 =
        Except.error ⟨"bad age/dosage table", util.Error.PkPd⟩)) :=
  ⟨by decide, getMultiplier_upper_bound _ (by decide) 5⟩

/-- C2 as stated fails: in the one-entry table `5 ↦ 1` the query `5` equals a table key, and
`getMultiplier` throws instead of returning a multiplier. -/
theorem getMultiplier_at_largest_key_throws :
    (DosageTable.mk false [(5, 1)]).ordered ∧
    (5 : ℚ) ∈ (DosageTable.mk false [(5, 1)]).table.map Prod.fst ∧
    (DosageTable.mk false [(5, 1)]).getMultiplier 5 =
      Except.error ⟨"bad age/dosage table", util.Error.PkPd⟩ ∧
    ¬ ∃ v, (DosageTable.mk false [(5, 1)]).getMultiplier 5 = Except.ok v := by
  have h : (DosageTable.mk false [(5, 1)]).getMultiplier 5 =
      Except.error ⟨"bad age/dosage table", util.Error.PkPd⟩ :=
    getMultiplier_of_end _ _ (by decide)
  refine ⟨by decide, by decide, h, ?_⟩
  rintro ⟨v, hv⟩
  rw [h] at hv
  exact absurd hv (by simp)

/-- C2, amended. On a table with the `std::map` ordering, for a query key equal to the key of
entry `i`: when an entry `i + 1` exists, its key is the smallest table key greater than the
query and `getMultiplier` returns its multiplier; when entry `i` is the last one (the query
equals the largest key) `getMultiplier` throws "bad age/dosage table" of kind `PkPd`. -/
theorem getMultiplier_at_threshold (t : DosageTable) (hs : t.ordered) (i : Nat)
    (hi : i < t.table.length) :
    (i + 1 < t.table.length →
      t.getMultiplier (t.table.getD i (0, 0)).1 = Except.ok (t.table.getD (i + 1) (0, 0)).2 ∧
      (t.table.getD i (0, 0)).1 < (t.table.getD (i + 1) (0, 0)).1 ∧
      ∀ e ∈ t.table, (t.table.getD i (0, 0)).1 < e.1 → (t.table.getD (i + 1) (0, 0)).1 ≤ e.1) ∧
    (i + 1 = t.table.length →
      t.getMultiplier (t.table.getD i (0, 0)).1 =
        Except.error ⟨"bad age/dosage table", util.Error.PkPd⟩) := by
  have hub := upper_bound_at_key t.table hs i hi
  constructor
  · intro hnext
    refine ⟨?_, ordered_getD_lt t.table hs i (i + 1) (Nat.lt_succ_self i) hnext, ?_⟩
    · rw [getMultiplier_of_ne_end t _ (by rw [hub]; omega), hub]
    · intro e he hk
      obtain ⟨j, hj, rfl⟩ := (mem_iff_getD _ _).mp he
      have hij : i + 1 ≤ j := by
        by_contra hcon
        have := ordered_getD_le t.table hs j i (by omega) hi
        exact absurd hk (not_lt.mpr this)
      exact ordered_getD_le t.table hs (i + 1) j hij hj
  · intro hlast
    exact getMultiplier_of_end t _ (by rw [hub]; exact hlast)

/-- Witness for the amended C2: the table `0 ↦ 1, 5 ↦ 2, 12 ↦ 3` at its entry `1` (key `5`). -/
theorem getMultiplier_at_threshold_witness :
    (DosageTable.mk false [(0, 1), (5, 2), (12, 3)]).ordered ∧
    1 < (DosageTable.mk false [(0, 1), (5, 2), (12, 3)]).table.length ∧
    (DosageTable.mk false [(0, 1), (5, 2), (12, 3)]).getMultiplier 5 = Except.ok 3 := by
  have h := getMultiplier_at_threshold (DosageTable.mk false [(0, 1), (5, 2), (12, 3)])
    (by decide) 1 (by decide)
  exact ⟨by decide, by decide, by simpa using (h.1 (by decide)).1⟩

end PkPd

/-! ## The first loop of `calc` -/

namespace UnitTest

theorem scanBody_maxima_t (lib : NumLib) (dens : List ℚ) (day : Nat) (s : Scan) :
    (scanBody lib dens day s).maxima_t =
      if isLocalMax dens day then s.maxima_t ++ [day] else s.maxima_t := by
  unfold scanBody
  split_ifs <;> rfl

theorem scanBody_first_pos (lib : NumLib) (dens : List ℚ) (day : Nat) (s : Scan) :
    (scanBody lib dens day s).first_pos =
      if s.first_pos = 0 ∧ dens.getD day 0 > 0 then day else s.first_pos := by
  unfold scanBody
  split_ifs <;> rfl

theorem scanBody_last_pos (lib : NumLib) (dens : List ℚ) (day : Nat) (s : Scan) :
    (scanBody lib dens day s).last_pos =
      if dens.getD day 0 > 0 then day else s.last_pos := by
  unfold scanBody
  split_ifs <;> rfl

/-- The invariant rule of the first loop: a property that holds on entry and is kept by every
iteration holds on exit, and the loop leaves with `day` at or beyond `dens.size()` whenever
the iteration bound covers the remaining days. -/
theorem scanLoop_invariant (lib : NumLib) (dens : List ℚ) (P : Nat → Scan → Prop)
    (hstep : ∀ d s, d < dens.length → P d s → P (d + step) (scanBody lib dens d s)) :
    ∀ fuel day s, dens.length ≤ day + step * fuel → P day s →
      ∃ d, dens.length ≤ d ∧ P d (scanLoop lib dens fuel day s) := by
  intro fuel
  induction fuel with
  | zero =>
    intro day s hf hP
    exact ⟨day, by simpa using hf, by simpa [scanLoop] using hP⟩
  | succ f ih =>
    intro day s hf hP
    simp only [scanLoop]
    split
    · rename_i hlt
      exact ih (day + step) (scanBody lib dens day s) (by simp only [step] at *; omega)
        (hstep day s hlt hP)
    · rename_i hge
      exact ⟨day, by omega, hP⟩

/-- The rule applied to the whole loop as `calc` runs it. -/
theorem scan_invariant (lib : NumLib) (dens : List ℚ) (P : Nat → Scan → Prop)
    (h0 : P start Scan.init)
    (hstep : ∀ d s, d < dens.length → P d s → P (d + step) (scanBody lib dens d s)) :
    ∃ d, dens.length ≤ d ∧ P d (scan lib dens) := by
  unfold scan
  exact scanLoop_invariant lib dens P hstep dens.length start Scan.init
    (by simp only [start, step]; omega) h0

/-- The first loop of `calc` is not cut short by its iteration bound: it leaves when its
condition `day < dens.size()` fails. -/
theorem scanLoop_exits (lib : NumLib) (dens : List ℚ) (more : Nat) :
    scanLoop lib dens (dens.length + more) start Scan.init = scan lib dens := by
  unfold scan
  suffices h : ∀ fuel day s, dens.length ≤ day + step * fuel →
      scanLoop lib dens (fuel + more) day s = scanLoop lib dens fuel day s from
    h dens.length start Scan.init (by simp only [start, step]; omega)
  intro fuel
  induction fuel with
  | zero =>
    intro day s hf
    have hge : ¬ day < dens.length := by omega
    cases more with
    | zero => rfl
    | succ m => simp [scanLoop, hge]
  | succ f ih =>
    intro day s hf
    rw [show f + 1 + more = (f + more) + 1 by omega]
    simp only [scanLoop]
    split
    · exact ih _ _ (by simp only [step] at *; omega)
    · rfl

theorem maximaInv_step (lib : NumLib) (dens : List ℚ) (d : Nat) (s : Scan)
    (h : MaximaInv dens d s) : MaximaInv dens (d + step) (scanBody lib dens d s) := by
  obtain ⟨hd, hsorted, hmem⟩ := h
  refine ⟨by simp only [step]; omega, ?_, ?_⟩
  · rw [scanBody_maxima_t]
    split
    · rw [List.Sorted, List.pairwise_append]
      refine ⟨hsorted, List.pairwise_singleton _ _, ?_⟩
      intro a ha b hb
      rw [List.mem_singleton] at hb
      subst hb
      exact ((hmem a).mp ha).2.1
    · exact hsorted
  · intro x
    rw [scanBody_maxima_t]
    split
    · rename_i hmax
      rw [List.mem_append, List.mem_singleton, hmem x]
      constructor
      · rintro (⟨h1, h2, h3⟩ | rfl)
        · exact ⟨h1, by omega, h3⟩
        · exact ⟨hd, by simp only [step]; omega, hmax⟩
      · rintro ⟨h1, h2, h3⟩
        simp only [step] at h2
        by_cases hx : x = d
        · exact Or.inr hx
        · exact Or.inl ⟨h1, by omega, h3⟩
    · rename_i hmax
      rw [hmem x]
      constructor
      · rintro ⟨h1, h2, h3⟩
        exact ⟨h1, by omega, h3⟩
      · rintro ⟨h1, h2, h3⟩
        simp only [step] at h2
        have hx : x ≠ d := by
          rintro rfl
          exact hmax h3
        exact ⟨h1, by omega, h3⟩

/-- The days in `maxima_t` after the first loop: sorted increasingly, and exactly the sampled
days that satisfy the local-maximum test. -/
theorem scan_maxima_t (lib : NumLib) (dens : List ℚ) :
    (scan lib dens).maxima_t.Sorted (fun a b => a < b) ∧
    ∀ x, x ∈ (scan lib dens).maxima_t ↔ x % 2 = 0 ∧ x < dens.length ∧ isLocalMax dens x := by
  obtain ⟨d, hd, hinv⟩ := scan_invariant lib dens (MaximaInv dens)
    ⟨by simp [start], by simp [Scan.init], by simp [Scan.init, start]⟩
    (fun d s _ h => maximaInv_step lib dens d s h)
  refine ⟨hinv.2.1, fun x => ?_⟩
  rw [hinv.2.2 x]
  constructor
  · rintro ⟨h1, _, h3⟩
    exact ⟨h1, by have := h3.2.1; omega, h3⟩
  · rintro ⟨h1, h2, h3⟩
    exact ⟨h1, by omega, h3⟩

theorem calc_no_max (lib : NumLib) (st : MolInfStats) (n : Nat) (dens : List ℚ) :
    (st.calc lib n dens).no_max = List.set st.no_max n ((scan lib dens).maxima_t.length : Int) := by
  unfold MolInfStats.calc
  simp only []
  split <;> rfl

theorem calc_last_pos_day (lib : NumLib) (st : MolInfStats) (n : Nat) (dens : List ℚ) :
    (st.calc lib n dens).last_pos_day =
      List.set st.last_pos_day n
        (Dbl.fin ((scan lib dens).last_pos - (scan lib dens).first_pos : Nat)) := by
  unfold MolInfStats.calc
  simp only []
  split <;> rfl

/-! ## Claims on `MolInfStats::calc`: local maxima -/

/-- C3. In `calc`, a day `d` is recorded in `maxima_t` if and only if it is a sampled day
(`d` even, `d < dens.size()`) with both stride-neighbours present (`d >= 2`,
`d + 2 < dens.size()`) and `dens[d] > dens[d-2]`, `dens[d] > dens[d+2]`; `maxima_t` is in
increasing day order; `no_max[n]`, for a run index `n` within the array, is the number of such
days.  With samples `0, 5, 1, 6, 1`
at days `0, 2, 4, 6, 8` (any values at the odd days) exactly days `2` and `6` are recorded
and `no_max[n] = 2`. -/
theorem calc_local_maxima (lib : NumLib) (st : MolInfStats) (n : Nat) (dens : List ℚ)
    (hn : n < st.no_max.length) :
    (∀ d, d ∈ (scan lib dens).maxima_t ↔
      d % 2 = 0 ∧ d < dens.length ∧ 2 ≤ d ∧ d + 2 < dens.length ∧
        dens.getD (d - 2) 0 < dens.getD d 0 ∧ dens.getD (d + 2) 0 < dens.getD d 0) ∧
    (scan lib dens).maxima_t.Sorted (fun a b => a < b) ∧
    ((st.calc lib n dens).no_max.getD n 0 : Int) =
      ((Finset.range dens.length).filter (fun d =>
        d % 2 = 0 ∧ 2 ≤ d ∧ d + 2 < dens.length ∧
          dens.getD (d - 2) 0 < dens.getD d 0 ∧ dens.getD (d + 2) 0 < dens.getD d 0)).card ∧
    (∀ a b c e : ℚ,
      (scan lib [0, a, 5, b, 1, c, 6, e, 1]).maxima_t = [2, 6] ∧
      (st.calc lib n [0, a, 5, b, 1, c, 6, e, 1]).no_max.getD n 0 = 2) := by
  have hmem : ∀ d, d ∈ (scan lib dens).maxima_t ↔
      d % 2 = 0 ∧ d < dens.length ∧ 2 ≤ d ∧ d + 2 < dens.length ∧
        dens.getD (d - 2) 0 < dens.getD d 0 ∧ dens.getD (d + 2) 0 < dens.getD d 0 := by
    intro d
    rw [(scan_maxima_t lib dens).2 d]
    simp only [isLocalMax, step, ge_iff_le, gt_iff_lt]
  have hget : ∀ dens' : List ℚ, (st.calc lib n dens').no_max.getD n 0 =
      ((scan lib dens').maxima_t.length : Int) := by
    intro dens'
    rw [calc_no_max]
    simp [List.getD_eq_getElem?_getD, List.getElem?_set, hn]
  refine ⟨hmem, (scan_maxima_t lib dens).1, ?_, ?_⟩
  · rw [hget]
    have hnodup : (scan lib dens).maxima_t.Nodup := (scan_maxima_t lib dens).1.nodup
    rw [← List.toFinset_card_of_nodup hnodup]
    congr 2
    ext d
    rw [List.mem_toFinset, hmem d, Finset.mem_filter, Finset.mem_range]
    tauto
  · intro a b c e
    have h : (scan lib [0, a, 5, b, 1, c, 6, e, 1]).maxima_t = [2, 6] := by
      simp [scan, scanLoop, scanBody, isLocalMax, Scan.init, start, step]
    exact ⟨h, by rw [hget, h]; rfl⟩

/-- Witness for C3: run `0` of a one-run statistic set on the series of the specification. -/
theorem calc_local_maxima_witness :
    0 < (MolInfStats.ctor 1).no_max.length ∧
    (scan nanLib [0, 0, 5, 0, 1, 0, 6, 0, 1]).maxima_t.Sorted (fun a b => a < b) ∧
    (scan nanLib [0, 0, 5, 0, 1, 0, 6, 0, 1]).maxima_t = [2, 6] ∧
    ((MolInfStats.ctor 1).calc nanLib 0 [0, 0, 5, 0, 1, 0, 6, 0, 1]).no_max.getD 0 0 = 2 :=
  ⟨by decide,
    (calc_local_maxima nanLib (MolInfStats.ctor 1) 0 [0, 0, 5, 0, 1, 0, 6, 0, 1]
      (by decide)).2.1,
    (calc_local_maxima nanLib (MolInfStats.ctor 1) 0 [0, 0, 5, 0, 1, 0, 6, 0, 1]
      (by decide)).2.2.2 0 0 0 0⟩

/-! ## Claims on the percentile indices -/

theorem ctor_init_slope_length (N : Nat) : (MolInfStats.ctor N).init_slope.length = N :=
  List.length_replicate N Dbl.nan

theorem floor_natCast_div (a b : ℕ) (hb : 0 < b) :
    ⌊(a : ℚ) / (b : ℚ)⌋ = ((a / b : ℕ) : ℤ) := by
  have hb' : (0 : ℚ) < b := by exact_mod_cast hb
  rw [Int.floor_eq_iff]
  constructor
  · rw [le_div_iff₀ hb']
    have := Nat.div_mul_le_self a b
    exact_mod_cast this
  · rw [div_lt_iff₀ hb']
    have h2 : a < (a / b + 1) * b := by
      calc a < a / b * b + b := Nat.lt_div_mul_add hb
        _ = (a / b + 1) * b := by ring
    exact_mod_cast h2

/-- Without wrap-around the indices of `print` are the plain integer quotients. -/
theorem print_idx_eq (st : MolInfStats) (hM : 1 ≤ st.init_slope.length)
    (hfit : 19 * (st.init_slope.length - 1) + 10 < SIZE_T) :
    st.print_idx =
      { med := (st.init_slope.length - 1 + 1) / 2
        q1 := (st.init_slope.length - 1 + 2) / 4
        q3 := ((st.init_slope.length - 1) * 3 + 2) / 4
        c5 := (st.init_slope.length - 1 + 10) / 20
        c95 := ((st.init_slope.length - 1) * 19 + 10) / 20 } := by
  have hlast : (st.init_slope.length + SIZE_T - 1) % SIZE_T = st.init_slope.length - 1 := by
    rw [show st.init_slope.length + SIZE_T - 1 = (st.init_slope.length - 1) + SIZE_T by omega,
      Nat.add_mod_right]
    exact Nat.mod_eq_of_lt (by omega)
  unfold MolInfStats.print_idx
  simp only [hlast]
  rw [Nat.mod_eq_of_lt (by omega : st.init_slope.length - 1 + 1 < SIZE_T),
    Nat.mod_eq_of_lt (by omega : st.init_slope.length - 1 + 2 < SIZE_T),
    Nat.mod_eq_of_lt (by omega : (st.init_slope.length - 1) * 3 + 2 < SIZE_T),
    Nat.mod_eq_of_lt (by omega : st.init_slope.length - 1 + 10 < SIZE_T),
    Nat.mod_eq_of_lt (by omega : (st.init_slope.length - 1) * 19 + 10 < SIZE_T)]

/-- The nine arrays of a `MolInfStats` of size `M` occupy `68 * M` bytes (eight of `double`,
one of `int`); when they fit in the address space, `19 * (M - 1) + 10` is within `size_t`. -/
theorem arrays_fit_no_wrap (M : Nat) (hM : 1 ≤ M) (h : 8 * (8 * M) + 4 * M ≤ SIZE_T) :
    19 * (M - 1) + 10 < SIZE_T := by
  omega

/-- C4. For a statistic array of size `M >= 1` (with `19 * (M - 1) + 10` within `size_t`, as
it is whenever the nine arrays fit in memory) and `last = M - 1`: the indices used by `print`,
`write` and `compare` are `med = (last+1)/2`, `q1 = (last+2)/4`, `q3 = (last*3+2)/4`,
`c5 = (last+10)/20`, `c95 = (last*19+10)/20` under integer division; each is `last * p` rounded
to the nearest integer, halves up, for `p = 1/2, 1/4, 3/4, 1/20, 19/20`; for `M = 200` they are
`100, 50, 149, 10, 189`; the three functions compute the same indices. -/
theorem percentile_indices (st : MolInfStats) (hM : 1 ≤ st.init_slope.length)
    (hfit : 19 * (st.init_slope.length - 1) + 10 < SIZE_T) :
    st.print_idx =
      { med := (st.init_slope.length - 1 + 1) / 2
        q1 := (st.init_slope.length - 1 + 2) / 4
        q3 := ((st.init_slope.length - 1) * 3 + 2) / 4
        c5 := (st.init_slope.length - 1 + 10) / 20
        c95 := ((st.init_slope.length - 1) * 19 + 10) / 20 } ∧
    st.write_idx = st.print_idx ∧ st.compare_idx = st.print_idx ∧
    (st.print_idx.med : ℤ) = roundHalfUp ((st.init_slope.length - 1 : ℕ) * (1 / 2)) ∧
    (st.print_idx.q1 : ℤ) = roundHalfUp ((st.init_slope.length - 1 : ℕ) * (1 / 4)) ∧
    (st.print_idx.q3 : ℤ) = roundHalfUp ((st.init_slope.length - 1 : ℕ) * (3 / 4)) ∧
    (st.print_idx.c5 : ℤ) = roundHalfUp ((st.init_slope.length - 1 : ℕ) * (1 / 20)) ∧
    (st.print_idx.c95 : ℤ) = roundHalfUp ((st.init_slope.length - 1 : ℕ) * (19 / 20)) ∧
    (st.init_slope.length = 200 →
      st.print_idx = { med := 100, q1 := 50, q3 := 149, c5 := 10, c95 := 189 }) := by
  have hidx := print_idx_eq st hM hfit
  refine ⟨hidx, rfl, rfl, ?_, ?_, ?_, ?_, ?_, ?_⟩
  · rw [hidx, ← floor_natCast_div _ 2 (by norm_num)]
    unfold roundHalfUp
    congr 1
    push_cast
    ring
  · rw [hidx, ← floor_natCast_div _ 4 (by norm_num)]
    unfold roundHalfUp
    congr 1
    push_cast
    ring
  · rw [hidx, ← floor_natCast_div _ 4 (by norm_num)]
    unfold roundHalfUp
    congr 1
    push_cast
    ring
  · rw [hidx, ← floor_natCast_div _ 20 (by norm_num)]
    unfold roundHalfUp
    congr 1
    push_cast
    ring
  · rw [hidx, ← floor_natCast_div _ 20 (by norm_num)]
    unfold roundHalfUp
    congr 1
    push_cast
    ring
  · intro h200
    rw [hidx, h200]

/-- Witness for C4: a statistic set of 200 runs, as the suite constructs it. -/
theorem percentile_indices_witness :
    1 ≤ (MolInfStats.ctor 200).init_slope.length ∧
    19 * ((MolInfStats.ctor 200).init_slope.length - 1) + 10 < SIZE_T ∧
    (MolInfStats.ctor 200).print_idx =
      { med := 100, q1 := 50, q3 := 149, c5 := 10, c95 := 189 } ∧
    (MolInfStats.ctor 200).write_idx = (MolInfStats.ctor 200).print_idx ∧
    (MolInfStats.ctor 200).compare_idx = (MolInfStats.ctor 200).print_idx :=
  have hlen : (MolInfStats.ctor 200).init_slope.length = 200 := ctor_init_slope_length 200
  have h1 : 1 ≤ (MolInfStats.ctor 200).init_slope.length := by rw [hlen]; decide
  have h2 : 19 * ((MolInfStats.ctor 200).init_slope.length - 1) + 10 < SIZE_T := by
    rw [hlen]; decide
  have h := percentile_indices (MolInfStats.ctor 200) h1 h2
  ⟨h1, h2, h.2.2.2.2.2.2.2.2 hlen, h.2.1, h.2.2.1⟩

/-! ## Claims on `MolInfStats::calc`: the span of positive days -/

/-- C5 fails on the code.  On the series `3, 5, 7, 4, 2` the sampled days `0`, `2`, `4` all
have positive density, so the span between the first and the last positive observation is
`4 - 0 = 4`; `calc` leaves `first_pos = 2` (its test `first_pos == 0` takes day `0` for "not
yet set" and overwrites it at day `2`) and stores `last_pos_day[n] = 2`. -/
theorem calc_last_pos_day_positive_day0 :
    (0 : ℚ) < ([3, 5, 7, 4, 2] : List ℚ).getD 0 0 ∧
    (0 : ℚ) < ([3, 5, 7, 4, 2] : List ℚ).getD 4 0 ∧
    ∀ lib : NumLib,
      (scan lib [3, 5, 7, 4, 2]).first_pos = 2 ∧ (scan lib [3, 5, 7, 4, 2]).last_pos = 4 ∧
      ((MolInfStats.ctor 1).calc lib 0 [3, 5, 7, 4, 2]).last_pos_day = [Dbl.fin 2] ∧
      ((MolInfStats.ctor 1).calc lib 0 [3, 5, 7, 4, 2]).last_pos_day ≠ [Dbl.fin (4 - 0)] := by
  refine ⟨by decide, by decide, fun lib => ?_⟩
  have h : ((MolInfStats.ctor 1).calc lib 0 [3, 5, 7, 4, 2]).last_pos_day = [Dbl.fin 2] := rfl
  refine ⟨rfl, rfl, h, ?_⟩
  rw [h]
  intro hcon
  norm_num at hcon

/-! ## Claims on `MolInfStats::calc`: runs without a local maximum -/

/-- When the first loop records no maximum, `calc` takes its early return. -/
theorem calc_of_no_maxima (lib : NumLib) (st : MolInfStats) (n : Nat) (dens : List ℚ)
    (h0 : (scan lib dens).maxima_t.length = 0) :
    st.calc lib n dens =
      { st with
        last_pos_day := List.set st.last_pos_day n
          (Dbl.fin ((scan lib dens).last_pos - (scan lib dens).first_pos : Nat))
        no_max := List.set st.no_max n ((scan lib dens).maxima_t.length : Int) } := by
  unfold MolInfStats.calc
  simp only [h0, if_true]

/-- C6. When `calc` detects zero local maxima (`maxima_t.size() == 0`) on run `n < N` of a
statistic set of size `N`, it returns normally, leaves `init_slope`, `log_1st_max`,
`slope_max`, `GM_interv` and `SD_log` as they were, and sets `no_max[n]` to `0`; on the arrays
set up by the constructor the five statistics of run `n` are therefore the not-a-number
sentinel. -/
theorem calc_no_maxima_leaves_nan (lib : NumLib) (st : MolInfStats) (N n : Nat)
    (dens : List ℚ) (h0 : (scan lib dens).maxima_t.length = 0) (hn : n < N)
    (hN : st.no_max.length = N) :
    (st.calc lib n dens).init_slope = st.init_slope ∧
    (st.calc lib n dens).log_1st_max = st.log_1st_max ∧
    (st.calc lib n dens).slope_max = st.slope_max ∧
    (st.calc lib n dens).GM_interv = st.GM_interv ∧
    (st.calc lib n dens).SD_log = st.SD_log ∧
    (st.calc lib n dens).no_max[n]? = some 0 ∧
    ((MolInfStats.ctor N).calc lib n dens).init_slope[n]? = some Dbl.nan ∧
    ((MolInfStats.ctor N).calc lib n dens).log_1st_max[n]? = some Dbl.nan ∧
    ((MolInfStats.ctor N).calc lib n dens).slope_max[n]? = some Dbl.nan ∧
    ((MolInfStats.ctor N).calc lib n dens).GM_interv[n]? = some Dbl.nan ∧
    ((MolInfStats.ctor N).calc lib n dens).SD_log[n]? = some Dbl.nan ∧
    ((MolInfStats.ctor N).calc lib n dens).no_max[n]? = some 0 := by
  have hrep : (List.replicate N Dbl.nan)[n]? = some Dbl.nan := by
    rw [List.getElem?_replicate]; simp [hn]
  rw [calc_of_no_maxima lib st n dens h0, calc_of_no_maxima lib (MolInfStats.ctor N) n dens h0]
  refine ⟨rfl, rfl, rfl, rfl, rfl, ?_, hrep, hrep, hrep, hrep, hrep, ?_⟩
  · simp [h0, List.getElem?_set, hN, hn]
  · simp [h0, List.getElem?_set, MolInfStats.ctor, hn]

/-- Witness for C6: the series `0, 0, 20` has no local maximum. -/
theorem calc_no_maxima_leaves_nan_witness :
    (scan nanLib [0, 0, 20]).maxima_t.length = 0 ∧ 0 < 1 ∧
    (MolInfStats.ctor 1).no_max.length = 1 ∧
    ((MolInfStats.ctor 1).calc nanLib 0 [0, 0, 20]).SD_log[0]? = some Dbl.nan ∧
    ((MolInfStats.ctor 1).calc nanLib 0 [0, 0, 20]).no_max[0]? = some 0 :=
  have h := calc_no_maxima_leaves_nan nanLib (MolInfStats.ctor 1) 1 0 [0, 0, 20]
    (by decide) (by decide) (by decide)
  ⟨by decide, by decide, by decide, h.2.2.2.2.2.2.2.2.2.2.1, h.2.2.2.2.2.2.2.2.2.2.2⟩

/-! ## Claims on `MolInfStats::calc`: the sample of log-intervals -/

/-- The loop over consecutive maxima multiplies into `gm` and appends to `log_intervals`. -/
theorem intervalLoop_foldl (lib : NumLib) (mt : List Nat) (xs : List Nat) (acc : ℚ × List Dbl) :
    (xs.foldl
      (fun acc i =>
        ((acc.1 * ((mt.getD i 0 : ℚ) - (mt.getD (i - 1) 0 : ℚ)),
          acc.2 ++ [lib.log10 ((mt.getD i 0 : ℚ) - (mt.getD (i - 1) 0 : ℚ))]) : ℚ × List Dbl))
      acc).2 =
    acc.2 ++ xs.map (fun i => lib.log10 ((mt.getD i 0 : ℚ) - (mt.getD (i - 1) 0 : ℚ))) := by
  induction xs generalizing acc with
  | nil => simp
  | cons x xs ih =>
    rw [List.foldl_cons, ih]
    simp

/-- The array `log_intervals` after the loop: the `k - 1` zeros it was constructed with,
followed by the `k - 1` logarithms pushed onto it. -/
theorem intervalLoop_log_intervals (lib : NumLib) (mt : List Nat) :
    (intervalLoop lib mt).2 =
      List.replicate (mt.length - 1) (Dbl.fin 0) ++
        (List.range' 1 (mt.length - 1)).map
          (fun i => lib.log10 ((mt.getD i 0 : ℚ) - (mt.getD (i - 1) 0 : ℚ))) := by
  unfold intervalLoop
  exact intervalLoop_foldl lib mt _ _

/-- The value stored in `SD_log[n]` when a maximum was recorded. -/
theorem calc_SD_log (lib : NumLib) (st : MolInfStats) (n : Nat) (dens : List ℚ)
    (hk : (scan lib dens).maxima_t.length ≠ 0) :
    (st.calc lib n dens).SD_log =
      List.set st.SD_log n (lib.gsl_stats_sd (intervalLoop lib (scan lib dens).maxima_t).2) := by
  unfold MolInfStats.calc
  simp only [hk, if_false]

/-- For `k >= 1` recorded maxima the sample handed to `gsl_stats_sd` has `2 * (k - 1)`
entries, the first `k - 1` of them zero. -/
theorem calc_SD_log_sample (lib : NumLib) (st : MolInfStats) (n : Nat) (dens : List ℚ)
    (hk : (scan lib dens).maxima_t.length ≠ 0) :
    (st.calc lib n dens).SD_log =
      List.set st.SD_log n (lib.gsl_stats_sd
        (List.replicate ((scan lib dens).maxima_t.length - 1) (Dbl.fin 0) ++
          (List.range' 1 ((scan lib dens).maxima_t.length - 1)).map
            (fun i => lib.log10 (((scan lib dens).maxima_t.getD i 0 : ℚ) -
              ((scan lib dens).maxima_t.getD (i - 1) 0 : ℚ))))) := by
  rw [calc_SD_log lib st n dens hk, intervalLoop_log_intervals]

/-- C7 fails on the code.  The series with samples `0, 5, 1, 6, 1, 7, 1` at days `0 .. 12` has
the three maxima `2, 6, 10`, hence the two intervals `4` and `4`; the sample `calc` hands to
`gsl_stats_sd` is not `log10 4, log10 4` but `0, 0, log10 4, log10 4`: `log_intervals` is
constructed with `k - 1` zero entries and the logarithms are appended behind them. -/
theorem calc_SD_log_has_leading_zeros :
    ∀ lib : NumLib,
      (scan lib [0, 0, 5, 0, 1, 0, 6, 0, 1, 0, 7, 0, 1]).maxima_t = [2, 6, 10] ∧
      ((MolInfStats.ctor 1).calc lib 0 [0, 0, 5, 0, 1, 0, 6, 0, 1, 0, 7, 0, 1]).SD_log =
        [lib.gsl_stats_sd [Dbl.fin 0, Dbl.fin 0, lib.log10 4, lib.log10 4]] := by
  intro lib
  have hm : (scan lib [0, 0, 5, 0, 1, 0, 6, 0, 1, 0, 7, 0, 1]).maxima_t = [2, 6, 10] := rfl
  refine ⟨hm, ?_⟩
  rw [calc_SD_log_sample lib _ 0 _ (by rw [hm]; decide), hm]
  norm_num [MolInfStats.ctor, List.range']
  rfl

/-! ## `first_pos` and `last_pos` after the first loop -/

theorem getD_pos_lt_length (dens : List ℚ) (x : Nat) (h : 0 < dens.getD x 0) :
    x < dens.length := by
  by_contra hx
  rw [List.getD_eq_default _ _ (by omega)] at h
  exact lt_irrefl _ h

theorem posInv_step (lib : NumLib) (dens : List ℚ) (d : Nat) (s : Scan)
    (h : PosInv dens d s) : PosInv dens (d + step) (scanBody lib dens d s) := by
  obtain ⟨hd, hl1, hl2, hf1, hf2, hfl⟩ := h
  unfold PosInv
  rw [scanBody_first_pos, scanBody_last_pos]
  simp only [step]
  by_cases hpos : 0 < dens.getD d 0
  · rw [if_pos (show dens.getD d 0 > 0 from hpos)]
    by_cases hz : s.first_pos = 0
    · rw [if_pos (show s.first_pos = 0 ∧ dens.getD d 0 > 0 from ⟨hz, hpos⟩)]
      refine ⟨by omega, fun x hx1 hx2 _ => by omega, Or.inr ⟨hd, by omega, hpos⟩, ?_,
        Or.inr ⟨hd, by omega, hpos⟩, le_refl _⟩
      intro x hx1 hx2 hx3 hx4
      by_cases hxd : x = d
      · omega
      · have := hf1 x hx1 hx2 (by omega) hx4
        omega
    · rw [if_neg (show ¬ (s.first_pos = 0 ∧ dens.getD d 0 > 0) from fun hc => hz hc.1)]
      refine ⟨by omega, fun x hx1 hx2 _ => by omega, Or.inr ⟨hd, by omega, hpos⟩, ?_, ?_, ?_⟩
      · intro x hx1 hx2 hx3 hx4
        by_cases hxd : x = d
        · rcases hf2 with h0 | ⟨_, h2, _⟩
          · exact absurd h0 hz
          · omega
        · exact hf1 x hx1 hx2 (by omega) hx4
      · rcases hf2 with h0 | ⟨h1, h2, h3⟩
        · exact Or.inl h0
        · exact Or.inr ⟨h1, by omega, h3⟩
      · rcases hf2 with h0 | ⟨_, h2, _⟩
        · exact absurd h0 hz
        · omega
  · rw [if_neg (show ¬ dens.getD d 0 > 0 from hpos),
      if_neg (show ¬ (s.first_pos = 0 ∧ dens.getD d 0 > 0) from fun hc => hpos hc.2)]
    refine ⟨by omega, ?_, ?_, ?_, ?_, hfl⟩
    · intro x hx1 hx2 hx3
      have hxd : x ≠ d := by
        rintro rfl
        exact hpos hx3
      exact hl1 x hx1 (by omega) hx3
    · rcases hl2 with h0 | ⟨h1, h2, h3⟩
      · exact Or.inl h0
      · exact Or.inr ⟨h1, by omega, h3⟩
    · intro x hx1 hx2 hx3 hx4
      have hxd : x ≠ d := by
        rintro rfl
        exact hpos hx4
      exact hf1 x hx1 hx2 (by omega) hx4
    · rcases hf2 with h0 | ⟨h1, h2, h3⟩
      · exact Or.inl h0
      · exact Or.inr ⟨h1, by omega, h3⟩

/-- After the first loop: `last_pos` is the last sampled day with positive density, and
`first_pos` is the first sampled day other than day `0` with positive density (each `0` when
there is no such day); `first_pos <= last_pos`. -/
theorem scan_pos (lib : NumLib) (dens : List ℚ) :
    (∀ x, x % 2 = 0 → 0 < dens.getD x 0 → x ≤ (scan lib dens).last_pos) ∧
    ((scan lib dens).last_pos = 0 ∨
      ((scan lib dens).last_pos % 2 = 0 ∧ 0 < dens.getD (scan lib dens).last_pos 0)) ∧
    (∀ x, x % 2 = 0 → 0 < x → 0 < dens.getD x 0 →
      0 < (scan lib dens).first_pos ∧ (scan lib dens).first_pos ≤ x) ∧
    ((scan lib dens).first_pos = 0 ∨
      ((scan lib dens).first_pos % 2 = 0 ∧ 0 < dens.getD (scan lib dens).first_pos 0)) ∧
    (scan lib dens).first_pos ≤ (scan lib dens).last_pos := by
  obtain ⟨d, hd, hinv⟩ := scan_invariant lib dens (PosInv dens)
    ⟨by simp [start], by simp [start], Or.inl rfl, by simp [start], Or.inl rfl, le_refl _⟩
    (fun d s _ h => posInv_step lib dens d s h)
  obtain ⟨_, hl1, hl2, hf1, hf2, hfl⟩ := hinv
  refine ⟨?_, ?_, ?_, ?_, hfl⟩
  · intro x hx1 hx2
    exact hl1 x hx1 (by have := getD_pos_lt_length dens x hx2; omega) hx2
  · rcases hl2 with h0 | ⟨h1, _, h3⟩
    · exact Or.inl h0
    · exact Or.inr ⟨h1, h3⟩
  · intro x hx1 hx2 hx3
    exact hf1 x hx1 hx2 (by have := getD_pos_lt_length dens x hx3; omega) hx3
  · rcases hf2 with h0 | ⟨h1, _, h3⟩
    · exact Or.inl h0
    · exact Or.inr ⟨h1, h3⟩

/-- The `size_t` differences that `calc` forms from `first_pos`, `mid_pos` and `last_pos` are
differences of a smaller from a larger value, for every series: none of them wraps. -/
theorem scan_first_mid_last (lib : NumLib) (dens : List ℚ) :
    (scan lib dens).first_pos ≤ mid_pos (scan lib dens) ∧
    mid_pos (scan lib dens) ≤ (scan lib dens).last_pos ∧
    start ≤ ((scan lib dens).first_pos + (scan lib dens).last_pos) / 2 := by
  obtain ⟨_, _, _, hf2, hfl⟩ := scan_pos lib dens
  have hFe : (scan lib dens).first_pos % 2 = 0 := by
    rcases hf2 with h | ⟨h, _⟩
    · rw [h]
    · exact h
  simp only [mid_pos, start, step]
  omega

/-! ## The counting loops of `calc` -/

/-- No day `x <= last` lies at or beyond a `day` that has passed `last`. -/
theorem card_stride_of_lt (p : Nat → Prop) [DecidablePred p] (day last : Nat)
    (h : last < day) :
    ((Finset.range (last + 1)).filter (fun x => day ≤ x ∧ x % 2 = day % 2 ∧ p x)).card = 0 := by
  rw [Finset.card_eq_zero, Finset.filter_eq_empty_iff]
  intro x hx hc
  rw [Finset.mem_range] at hx
  omega

/-- The days `day, day + 2, ..` up to `last` that satisfy `p`: `day` itself, then the days
from `day + 2` on. -/
theorem card_stride_split (p : Nat → Prop) [DecidablePred p] (day last : Nat)
    (h : day ≤ last) :
    ((Finset.range (last + 1)).filter (fun x => day ≤ x ∧ x % 2 = day % 2 ∧ p x)).card =
      (if p day then 1 else 0) +
        ((Finset.range (last + 1)).filter
          (fun x => day + 2 ≤ x ∧ x % 2 = (day + 2) % 2 ∧ p x)).card := by
  by_cases hp : p day
  · rw [if_pos hp]
    have hnot : day ∉ (Finset.range (last + 1)).filter
        (fun x => day + 2 ≤ x ∧ x % 2 = (day + 2) % 2 ∧ p x) := by
      rw [Finset.mem_filter]
      intro hc
      omega
    rw [Nat.add_comm 1 _, ← Finset.card_insert_of_not_mem hnot]
    congr 1
    ext x
    simp only [Finset.mem_filter, Finset.mem_range, Finset.mem_insert]
    constructor
    · rintro ⟨h1, h2, h3, h4⟩
      by_cases hx : x = day
      · exact Or.inl hx
      · exact Or.inr ⟨h1, by omega, by omega, h4⟩
    · rintro (rfl | ⟨h1, h2, h3, h4⟩)
      · exact ⟨by omega, le_refl _, rfl, hp⟩
      · exact ⟨h1, by omega, by omega, h4⟩
  · rw [if_neg hp, zero_add]
    congr 1
    ext x
    simp only [Finset.mem_filter, Finset.mem_range]
    constructor
    · rintro ⟨h1, h2, h3, h4⟩
      have hx : x ≠ day := by
        rintro rfl
        exact hp h4
      exact ⟨h1, by omega, by omega, h4⟩
    · rintro ⟨h1, h2, h3, h4⟩
      exact ⟨h1, by omega, by omega, h4⟩

/-- A counting loop of `calc` adds to `pos_obs` the number of days `day, day + 2, ..` up to
`last` whose density exceeds the detection limit, whenever its iteration bound covers them. -/
theorem countLoop_eq (dens : List ℚ) (last : Nat) :
    ∀ fuel day (acc : ℚ), last < day + 2 * fuel →
      countLoop dens last fuel day acc =
        acc + (((Finset.range (last + 1)).filter
          (fun x => day ≤ x ∧ x % 2 = day % 2 ∧ detect_lim < dens.getD x 0)).card : ℚ) := by
  intro fuel
  induction fuel with
  | zero =>
    intro day acc hf
    rw [card_stride_of_lt _ day last (by omega)]
    simp [countLoop]
  | succ f ih =>
    intro day acc hf
    simp only [countLoop]
    split
    · rename_i hle
      rw [ih _ _ (by simp only [step]; omega), card_stride_split _ day last hle]
      simp only [step]
      split_ifs with hp <;> (push_cast; ring)
    · rename_i hgt
      rw [card_stride_of_lt _ day last (by omega)]
      simp

/-- The number of days `a, a + 2, ..` up to `b`. -/
theorem card_stride (b : Nat) :
    ∀ k a, b + 1 - a ≤ k →
      ((Finset.range (b + 1)).filter (fun x => a ≤ x ∧ x % 2 = a % 2 ∧ True)).card =
        if a ≤ b then (b - a) / 2 + 1 else 0 := by
  intro k
  induction k with
  | zero =>
    intro a hk
    rw [card_stride_of_lt _ a b (by omega), if_neg (by omega)]
  | succ k ih =>
    intro a hk
    by_cases hab : a ≤ b
    · rw [card_stride_split _ a b hab, ih (a + 2) (by omega), if_pos hab, if_pos trivial]
      split
      · omega
      · omega
    · rw [card_stride_of_lt _ a b (by omega), if_neg hab]

/-! ## Claims on `MolInfStats::calc`: the proportions of positive days -/

theorem Dbl.div_of_ne_zero (a b : ℚ) (hb : b ≠ 0) : Dbl.div a b = Dbl.fin (a / b) := by
  unfold Dbl.div
  rw [if_neg hb]

theorem Dbl.div_zero_zero : Dbl.div 0 0 = Dbl.nan := by
  unfold Dbl.div
  simp

/-- The values stored in `prop_pos_1st[n]` and `prop_pos_2nd[n]` when a maximum was
recorded. -/
theorem calc_prop_pos (lib : NumLib) (st : MolInfStats) (n : Nat) (dens : List ℚ)
    (hk : (scan lib dens).maxima_t.length ≠ 0) :
    (st.calc lib n dens).prop_pos_1st =
      List.set st.prop_pos_1st n
        (Dbl.div
          (countLoop dens (mid_pos (scan lib dens)) (mid_pos (scan lib dens) + 1)
            (scan lib dens).first_pos 0)
          (((mid_pos (scan lib dens) - (scan lib dens).first_pos) / step + 1 : Nat) : ℚ)) ∧
    (st.calc lib n dens).prop_pos_2nd =
      List.set st.prop_pos_2nd n
        (Dbl.div
          (countLoop dens (scan lib dens).last_pos ((scan lib dens).last_pos + 1)
            (mid_pos (scan lib dens) + step) 0)
          ((((scan lib dens).last_pos - mid_pos (scan lib dens)) / step : Nat) : ℚ)) := by
  unfold MolInfStats.calc
  simp only [hk, if_false, and_self]

/-- C8 as stated fails: the series `0, 0, 20` has its only positive observation at the sampled
day `2`, so the first half of the window is the single day `2`, whose density exceeds `10`
(one day out of one); `calc` records no local maximum, returns early and leaves
`prop_pos_1st[n]` not-a-number. -/
theorem calc_prop_pos_no_maxima :
    ((Finset.range 3).filter
      (fun x => x % 2 = 0 ∧ 2 ≤ x ∧ x ≤ 2 ∧ (10 : ℚ) < ([0, 0, 20] : List ℚ).getD x 0)).card = 1 ∧
    ((Finset.range 3).filter (fun x => x % 2 = 0 ∧ 2 ≤ x ∧ x ≤ 2)).card = 1 ∧
    ∀ lib : NumLib,
      (scan lib [0, 0, 20]).first_pos = 2 ∧ (scan lib [0, 0, 20]).last_pos = 2 ∧
      (scan lib [0, 0, 20]).maxima_t = [] ∧
      ((MolInfStats.ctor 1).calc lib 0 [0, 0, 20]).prop_pos_1st = [Dbl.nan] ∧
      ((MolInfStats.ctor 1).calc lib 0 [0, 0, 20]).prop_pos_1st ≠ [Dbl.fin (1 / 1)] := by
  refine ⟨by decide, by decide, fun lib => ⟨rfl, rfl, rfl, rfl, ?_⟩⟩
  have h : ((MolInfStats.ctor 1).calc lib 0 [0, 0, 20]).prop_pos_1st = [Dbl.nan] := rfl
  rw [h]
  simp

/-- C8, amended.  For a run in which `calc` records at least one local maximum, whose day-0
density is not positive and which has a sampled day of positive density: with `F` and `L` the
first and the last sampled day of positive density and `M` the midpoint `(F + L)/2` rounded
down to a sampled day, `prop_pos_1st[n]` is the number of sampled days in `F .. M` whose
density exceeds `10` divided by the number of sampled days in `F .. M` (which is positive),
and `prop_pos_2nd[n]` is the same fraction over the sampled days after `M` up to `L`, or
not-a-number when there is no such day. -/
theorem calc_prop_pos_fractions (lib : NumLib) (st : MolInfStats) (n : Nat) (dens : List ℚ)
    (hk : (scan lib dens).maxima_t.length ≠ 0)
    (h0 : ¬ 0 < dens.getD 0 0)
    (hex : ∃ x, x % 2 = 0 ∧ 0 < dens.getD x 0)
    (hn1 : n < st.prop_pos_1st.length) (hn2 : n < st.prop_pos_2nd.length) :
    ∃ F L M : Nat,
      (F % 2 = 0 ∧ 0 < dens.getD F 0 ∧ ∀ x, x % 2 = 0 → 0 < dens.getD x 0 → F ≤ x) ∧
      (L % 2 = 0 ∧ 0 < dens.getD L 0 ∧ ∀ x, x % 2 = 0 → 0 < dens.getD x 0 → x ≤ L) ∧
      (M % 2 = 0 ∧ M ≤ (F + L) / 2 ∧ (F + L) / 2 < M + 2) ∧
      0 < ((Finset.range dens.length).filter (fun x => x % 2 = 0 ∧ F ≤ x ∧ x ≤ M)).card ∧
      (st.calc lib n dens).prop_pos_1st[n]? = some (Dbl.fin
        ((((Finset.range dens.length).filter
            (fun x => x % 2 = 0 ∧ F ≤ x ∧ x ≤ M ∧ 10 < dens.getD x 0)).card : ℚ) /
          (((Finset.range dens.length).filter
            (fun x => x % 2 = 0 ∧ F ≤ x ∧ x ≤ M)).card : ℚ))) ∧
      (st.calc lib n dens).prop_pos_2nd[n]? = some
        (if ((Finset.range dens.length).filter (fun x => x % 2 = 0 ∧ M < x ∧ x ≤ L)).card = 0
          then Dbl.nan
          else Dbl.fin
            ((((Finset.range dens.length).filter
                (fun x => x % 2 = 0 ∧ M < x ∧ x ≤ L ∧ 10 < dens.getD x 0)).card : ℚ) /
              (((Finset.range dens.length).filter
                (fun x => x % 2 = 0 ∧ M < x ∧ x ≤ L)).card : ℚ))) := by
  obtain ⟨hl1, hl2, hf1, hf2, hfl⟩ := scan_pos lib dens
  obtain ⟨hp1, hp2⟩ := calc_prop_pos lib st n dens hk
  obtain ⟨x0, hx0e, hx0p⟩ := hex
  have hx0 : 0 < x0 := by
    rcases Nat.eq_zero_or_pos x0 with h | h
    · subst h; exact absurd hx0p h0
    · exact h
  obtain ⟨hFpos, hFx0⟩ := hf1 x0 hx0e hx0 hx0p
  have hLx0 := hl1 x0 hx0e hx0p
  obtain ⟨hFe, hFp⟩ := hf2.resolve_left (by omega)
  obtain ⟨hLe, hLp⟩ := hl2.resolve_left (by omega)
  have hLlen := getD_pos_lt_length dens _ hLp
  have hM : mid_pos (scan lib dens) =
      ((scan lib dens).first_pos + (scan lib dens).last_pos) / 2 / 2 * 2 := by
    simp [mid_pos, start, step]
  generalize mid_pos (scan lib dens) = M at hM hp1 hp2
  generalize (scan lib dens).first_pos = F at *
  generalize (scan lib dens).last_pos = L at *
  have hFmin : ∀ x, x % 2 = 0 → 0 < dens.getD x 0 → F ≤ x := by
    intro x hx1 hx2
    rcases Nat.eq_zero_or_pos x with h | h
    · subst h; exact absurd hx2 h0
    · exact (hf1 x hx1 h hx2).2
  have hA1 : (Finset.range (M + 1)).filter
      (fun x => F ≤ x ∧ x % 2 = F % 2 ∧ detect_lim < dens.getD x 0) =
      (Finset.range dens.length).filter
        (fun x => x % 2 = 0 ∧ F ≤ x ∧ x ≤ M ∧ 10 < dens.getD x 0) := by
    ext x
    simp only [Finset.mem_filter, Finset.mem_range, detect_lim]
    constructor
    · rintro ⟨h1, h2, h3, h4⟩
      exact ⟨by omega, by omega, h2, by omega, h4⟩
    · rintro ⟨h1, h2, h3, h4, h5⟩
      exact ⟨by omega, h3, by omega, h5⟩
  have hB1 : (Finset.range (M + 1)).filter (fun x => F ≤ x ∧ x % 2 = F % 2 ∧ True) =
      (Finset.range dens.length).filter (fun x => x % 2 = 0 ∧ F ≤ x ∧ x ≤ M) := by
    ext x
    simp only [Finset.mem_filter, Finset.mem_range]
    constructor
    · rintro ⟨h1, h2, h3, _⟩
      exact ⟨by omega, by omega, h2, by omega⟩
    · rintro ⟨h1, h2, h3, h4⟩
      exact ⟨by omega, h3, by omega, trivial⟩
  have hA2 : (Finset.range (L + 1)).filter
      (fun x => M + 2 ≤ x ∧ x % 2 = (M + 2) % 2 ∧ detect_lim < dens.getD x 0) =
      (Finset.range dens.length).filter
        (fun x => x % 2 = 0 ∧ M < x ∧ x ≤ L ∧ 10 < dens.getD x 0) := by
    ext x
    simp only [Finset.mem_filter, Finset.mem_range, detect_lim]
    constructor
    · rintro ⟨h1, h2, h3, h4⟩
      exact ⟨by omega, by omega, by omega, by omega, h4⟩
    · rintro ⟨h1, h2, h3, h4, h5⟩
      exact ⟨by omega, by omega, by omega, h5⟩
  have hB2 : (Finset.range (L + 1)).filter
      (fun x => M + 2 ≤ x ∧ x % 2 = (M + 2) % 2 ∧ True) =
      (Finset.range dens.length).filter (fun x => x % 2 = 0 ∧ M < x ∧ x ≤ L) := by
    ext x
    simp only [Finset.mem_filter, Finset.mem_range]
    constructor
    · rintro ⟨h1, h2, h3, _⟩
      exact ⟨by omega, by omega, by omega, by omega⟩
    · rintro ⟨h1, h2, h3, h4⟩
      exact ⟨by omega, by omega, by omega, trivial⟩
  have hc1 := card_stride M (M + 1) F (by omega)
  rw [hB1, if_pos (by omega : F ≤ M)] at hc1
  have hc2 := card_stride L (L + 1) (M + 2) (by omega)
  rw [hB2] at hc2
  have hc2' : ((Finset.range dens.length).filter
      (fun x => x % 2 = 0 ∧ M < x ∧ x ≤ L)).card = (L - M) / 2 := by
    rw [hc2]
    split <;> omega
  have hsub : (Finset.range dens.length).filter
        (fun x => x % 2 = 0 ∧ M < x ∧ x ≤ L ∧ 10 < dens.getD x 0) ⊆
      (Finset.range dens.length).filter (fun x => x % 2 = 0 ∧ M < x ∧ x ≤ L) := by
    intro x
    simp only [Finset.mem_filter]
    rintro ⟨h1, h2, h3, h4, _⟩
    exact ⟨h1, h2, h3, h4⟩
  refine ⟨F, L, M, ⟨hFe, hFp, hFmin⟩, ⟨hLe, hLp, hl1⟩, ⟨by omega, by omega, by omega⟩,
    by omega, ?_, ?_⟩
  · rw [hp1, List.getElem?_set_self hn1, countLoop_eq dens M (M + 1) F 0 (by omega), hA1,
      zero_add, hc1]
    simp only [step]
    rw [Dbl.div_of_ne_zero _ _ (by positivity)]
  · rw [hp2, List.getElem?_set_self hn2]
    simp only [step]
    rw [countLoop_eq dens L (L + 1) (M + 2) 0 (by omega), hA2, zero_add, hc2']
    split
    · rename_i hz
      have hz' : ((Finset.range dens.length).filter
          (fun x => x % 2 = 0 ∧ M < x ∧ x ≤ L ∧ 10 < dens.getD x 0)).card = 0 := by
        have := Finset.card_le_card hsub
        omega
      rw [hz', hz]
      simp [Dbl.div_zero_zero]
    · rename_i hz
      rw [Dbl.div_of_ne_zero _ _ (by exact_mod_cast hz)]

/-- Witness for the amended C8: samples `0, 5, 20, 6, 1` at days `0 .. 8`, with the local
maximum at day `4`. -/
theorem calc_prop_pos_fractions_witness :
    (scan nanLib [0, 0, 5, 0, 20, 0, 6, 0, 1]).maxima_t.length ≠ 0 ∧
      ¬ (0 : ℚ) < ([0, 0, 5, 0, 20, 0, 6, 0, 1] : List ℚ).getD 0 0 ∧
      ∃ F L M : Nat,
        (F % 2 = 0 ∧ 0 < ([0, 0, 5, 0, 20, 0, 6, 0, 1] : List ℚ).getD F 0 ∧
          ∀ x, x % 2 = 0 → 0 < ([0, 0, 5, 0, 20, 0, 6, 0, 1] : List ℚ).getD x 0 → F ≤ x) ∧
        (L % 2 = 0 ∧ 0 < ([0, 0, 5, 0, 20, 0, 6, 0, 1] : List ℚ).getD L 0 ∧
          ∀ x, x % 2 = 0 → 0 < ([0, 0, 5, 0, 20, 0, 6, 0, 1] : List ℚ).getD x 0 → x ≤ L) ∧
        (M % 2 = 0 ∧ M ≤ (F + L) / 2 ∧ (F + L) / 2 < M + 2) ∧
        0 < ((Finset.range ([0, 0, 5, 0, 20, 0, 6, 0, 1] : List ℚ).length).filter
          (fun x => x % 2 = 0 ∧ F ≤ x ∧ x ≤ M)).card ∧
        ((MolInfStats.ctor 1).calc nanLib 0 [0, 0, 5, 0, 20, 0, 6, 0, 1]).prop_pos_1st[0]? =
          some (Dbl.fin
            ((((Finset.range ([0, 0, 5, 0, 20, 0, 6, 0, 1] : List ℚ).length).filter
                (fun x => x % 2 = 0 ∧ F ≤ x ∧ x ≤ M ∧
                  10 < ([0, 0, 5, 0, 20, 0, 6, 0, 1] : List ℚ).getD x 0)).card : ℚ) /
              (((Finset.range ([0, 0, 5, 0, 20, 0, 6, 0, 1] : List ℚ).length).filter
                (fun x => x % 2 = 0 ∧ F ≤ x ∧ x ≤ M)).card : ℚ))) ∧
        ((MolInfStats.ctor 1).calc nanLib 0 [0, 0, 5, 0, 20, 0, 6, 0, 1]).prop_pos_2nd[0]? =
          some
            (if ((Finset.range ([0, 0, 5, 0, 20, 0, 6, 0, 1] : List ℚ).length).filter
                (fun x => x % 2 = 0 ∧ M < x ∧ x ≤ L)).card = 0
              then Dbl.nan
              else Dbl.fin
                ((((Finset.range ([0, 0, 5, 0, 20, 0, 6, 0, 1] : List ℚ).length).filter
                    (fun x => x % 2 = 0 ∧ M < x ∧ x ≤ L ∧
                      10 < ([0, 0, 5, 0, 20, 0, 6, 0, 1] : List ℚ).getD x 0)).card : ℚ) /
                  (((Finset.range ([0, 0, 5, 0, 20, 0, 6, 0, 1] : List ℚ).length).filter
                    (fun x => x % 2 = 0 ∧ M < x ∧ x ≤ L)).card : ℚ))) :=
    have hk : (scan nanLib [0, 0, 5, 0, 20, 0, 6, 0, 1]).maxima_t.length ≠ 0 :=
      show ([4] : List Nat).length ≠ 0 by decide
    have h0 : ¬ (0 : ℚ) < ([0, 0, 5, 0, 20, 0, 6, 0, 1] : List ℚ).getD 0 0 := by decide
    ⟨hk, h0, calc_prop_pos_fractions nanLib (MolInfStats.ctor 1) 0 [0, 0, 5, 0, 20, 0, 6, 0, 1]
      hk h0 ⟨2, by decide, by decide⟩ (by decide) (by decide)⟩

/-! ## Claims on `MolInfStats::capture` -/

/-- The loop of `capture` only appends to `dens`. -/
theorem captureLoop_extends {σ : Type} (H : Harness σ) :
    ∀ fuel inf now acc dens w, captureLoop H fuel inf now acc = some (dens, w) →
      ∃ rest, dens = acc ++ rest := by
  intro fuel
  induction fuel with
  | zero =>
    intro inf now acc dens w h
    simp [captureLoop] at h
  | succ f ih =>
    intro inf now acc dens w h
    simp only [captureLoop] at h
    split at h
    · obtain ⟨rest, hrest⟩ := ih _ _ _ _ _ h
      exact ⟨H.getDensity (H.update inf now).2 :: rest, by rw [hrest]; simp⟩
    · simp only [Option.some.injEq, Prod.mk.injEq] at h
      exact ⟨[], by rw [← h.1]; simp⟩

/-- The loop of `capture`, when it ends: it made `k + 1` `update` calls on consecutive days,
the first `k` returned false and the last returned true, and it appended to `dens` the
density read after each of the first `k` calls, in order. -/
theorem captureLoop_trace {σ : Type} (H : Harness σ) :
    ∀ fuel inf now acc dens w, captureLoop H fuel inf now acc = some (dens, w) →
      ∃ k, k < fuel ∧
        dens = acc ++ (List.range k).map (fun i => H.getDensity (nthUpdate H (i + 1) inf now)) ∧
        (∀ i, i < k → (H.update (nthUpdate H i inf now) (now + i * H.oneDay)).1 = false) ∧
        (H.update (nthUpdate H k inf now) (now + k * H.oneDay)).1 = true ∧
        w = nthUpdate H (k + 1) inf now := by
  intro fuel
  induction fuel with
  | zero =>
    intro inf now acc dens w h
    simp [captureLoop] at h
  | succ f ih =>
    intro inf now acc dens w h
    simp only [captureLoop] at h
    split at h
    · rename_i hu
      have hu' : (H.update inf now).1 = false := by simpa using hu
      obtain ⟨k, hk, hd, hf, ht, hw⟩ := ih _ _ _ _ _ h
      refine ⟨k + 1, by omega, ?_, ?_, ?_, ?_⟩
      · rw [hd, List.range_succ_eq_map, List.map_cons, List.map_map, List.append_assoc]
        rfl
      · intro i hi
        cases i with
        | zero => simpa [nthUpdate] using hu'
        | succ j =>
          have := hf j (by omega)
          simp only [nthUpdate]
          rw [show now + ((j + 1 : Nat) : Int) * H.oneDay = now + H.oneDay + (j : Int) * H.oneDay by
            push_cast; ring]
          exact this
      · simp only [nthUpdate]
        rw [show now + ((k + 1 : Nat) : Int) * H.oneDay = now + H.oneDay + (k : Int) * H.oneDay by
          push_cast; ring]
        exact ht
      · rw [hw]
        rfl
    · rename_i hu
      have hu' : (H.update inf now).1 = true := by simpa using hu
      simp only [Option.some.injEq, Prod.mk.injEq] at h
      refine ⟨0, by omega, by simp [h.1], fun i hi => absurd hi (Nat.not_lt_zero i), ?_, ?_⟩
      · simpa [nthUpdate] using hu'
      · rw [← h.2]
        rfl

/-- The first entry of the series that `capture` hands to `calc` is the density read after the
`update` call made at `now = ts0`, whenever that call returns false.  The loop has no test of
`now - m_startDate - latentP`. -/
theorem captureDens_head {σ : Type} (H : Harness σ) (fuel : Nat) (w w1 : σ) (dens : List ℚ)
    (h : captureDens H fuel w = some (dens, w1))
    (hu : (H.update (H.construct w) H.ts0).1 = false) :
    dens.head? = some (H.getDensity (H.update (H.construct w) H.ts0).2) := by
  unfold captureDens at h
  cases fuel with
  | zero => simp [captureLoop] at h
  | succ f =>
    simp only [captureLoop, hu, Bool.not_false, if_true, List.nil_append] at h
    obtain ⟨rest, hrest⟩ := captureLoop_extends H _ _ _ _ _ _ h
    rw [hrest]
    rfl

/-- C9 fails on the code.  For an infection inoculated at `ts0` with a latent period of two
days, the series that `capture` hands to `calc` is `0, 0, 8, 4`: its entries `0` and `1` were
read after the `update` calls at elapsed times `0` and `1`, both below the latent period. -/
theorem capture_hands_latent_observations :
    captureDens latentInfection 10 0 = some ([0, 0, 8, 4], 0) ∧
    latentInfection.ts0 - latentInfection.m_startDate (latentInfection.construct 0) <
      latentInfection.latentP ∧
    latentInfection.ts0 + latentInfection.oneDay -
      latentInfection.m_startDate (latentInfection.construct 0) < latentInfection.latentP ∧
    ([0, 0, 8, 4] : List ℚ).head? = some (latentInfection.getDensity
      (latentInfection.update (latentInfection.construct 0) latentInfection.ts0).2) := by
  refine ⟨by decide, by decide, by decide, by decide⟩

end UnitTest

/-! ## Claims on `MolInfStats::calc`: the two halves of the window -/

namespace UnitTest

/-- A counting loop of `calc` counts the days it visits whose density exceeds the detection
limit. -/
theorem countLoop_eq_countP (dens : List ℚ) (last : Nat) :
    ∀ fuel day (acc : ℚ),
      countLoop dens last fuel day acc =
        acc + (((countLoopDays last fuel day).countP
          (fun x => decide (detect_lim < dens.getD x 0)) : Nat) : ℚ) := by
  intro fuel
  induction fuel with
  | zero =>
    intro day acc
    simp [countLoop, countLoopDays]
  | succ f ih =>
    intro day acc
    simp only [countLoop, countLoopDays]
    split
    · rw [ih, List.countP_cons]
      by_cases hp : detect_lim < dens.getD day 0
      · rw [if_pos (show dens.getD day 0 > detect_lim from hp),
          if_pos (show decide (detect_lim < dens.getD day 0) = true from decide_eq_true hp)]
        push_cast
        ring
      · rw [if_neg (show ¬ dens.getD day 0 > detect_lim from hp),
          if_neg (show ¬ decide (detect_lim < dens.getD day 0) = true by simpa using hp)]
        simp
    · simp

/-- The days a counting loop visits: `day, day + 2, ..` up to `last`, when its iteration bound
covers them. -/
theorem mem_countLoopDays (last : Nat) :
    ∀ fuel day x, last < day + 2 * fuel →
      (x ∈ countLoopDays last fuel day ↔ day ≤ x ∧ x ≤ last ∧ x % 2 = day % 2) := by
  intro fuel
  induction fuel with
  | zero =>
    intro day x hf
    simp only [countLoopDays, List.not_mem_nil, false_iff]
    omega
  | succ f ih =>
    intro day x hf
    simp only [countLoopDays]
    split
    · rw [List.mem_cons, ih (day + step) x (by simp only [step]; omega)]
      simp only [step]
      omega
    · simp only [List.not_mem_nil, false_iff]
      omega

/-- The days a counting loop visits are strictly increasing, hence visited once each. -/
theorem countLoopDays_sorted (last : Nat) :
    ∀ fuel day, (countLoopDays last fuel day).Sorted (fun a b => a < b) ∧
      ∀ x ∈ countLoopDays last fuel day, day ≤ x := by
  intro fuel
  induction fuel with
  | zero =>
    intro day
    simp [countLoopDays]
  | succ f ih =>
    intro day
    simp only [countLoopDays]
    split
    · obtain ⟨h1, h2⟩ := ih (day + step)
      refine ⟨List.sorted_cons.mpr ⟨fun b hb => ?_, h1⟩, fun x hx => ?_⟩
      · have := h2 b hb
        simp only [step] at this
        omega
      · rcases List.mem_cons.mp hx with h | h
        · omega
        · have := h2 x h
          simp only [step] at this
          omega
    · simp

/-- The number of days a counting loop visits. -/
theorem length_countLoopDays (last : Nat) :
    ∀ fuel day, last < day + 2 * fuel →
      (countLoopDays last fuel day).length = if day ≤ last then (last - day) / 2 + 1 else 0 := by
  intro fuel
  induction fuel with
  | zero =>
    intro day hf
    rw [if_neg (by omega)]
    rfl
  | succ f ih =>
    intro day hf
    simp only [countLoopDays]
    split
    · rw [List.length_cons, ih (day + step) (by simp only [step]; omega)]
      simp only [step]
      split <;> omega
    · rfl

/-- The two proportion loops of `calc` split the sampled days of `[first_pos, last_pos]` at
`mid_pos`. -/
theorem split_halves (lib : NumLib) (dens : List ℚ) :
    (mid_pos (scan lib dens) % 2 = 0 ∧
      mid_pos (scan lib dens) ≤ ((scan lib dens).first_pos + (scan lib dens).last_pos) / 2 ∧
      ∀ x, x % 2 = 0 → x ≤ ((scan lib dens).first_pos + (scan lib dens).last_pos) / 2 →
        x ≤ mid_pos (scan lib dens)) ∧
    ((scan lib dens).first_pos ≤ mid_pos (scan lib dens) ∧
      mid_pos (scan lib dens) ≤ (scan lib dens).last_pos) ∧
    (∀ x, x ∈ countLoopDays (mid_pos (scan lib dens)) (mid_pos (scan lib dens) + 1)
        (scan lib dens).first_pos ↔
      x % 2 = 0 ∧ (scan lib dens).first_pos ≤ x ∧ x ≤ mid_pos (scan lib dens)) ∧
    (∀ x, x ∈ countLoopDays (scan lib dens).last_pos ((scan lib dens).last_pos + 1)
        (mid_pos (scan lib dens) + step) ↔
      x % 2 = 0 ∧ mid_pos (scan lib dens) + 2 ≤ x ∧ x ≤ (scan lib dens).last_pos) ∧
    (∀ x, x % 2 = 0 ∧ (scan lib dens).first_pos ≤ x ∧ x ≤ (scan lib dens).last_pos ↔
      (x ∈ countLoopDays (mid_pos (scan lib dens)) (mid_pos (scan lib dens) + 1)
          (scan lib dens).first_pos ∨
        x ∈ countLoopDays (scan lib dens).last_pos ((scan lib dens).last_pos + 1)
          (mid_pos (scan lib dens) + step))) ∧
    (∀ x, ¬ (x ∈ countLoopDays (mid_pos (scan lib dens)) (mid_pos (scan lib dens) + 1)
          (scan lib dens).first_pos ∧
        x ∈ countLoopDays (scan lib dens).last_pos ((scan lib dens).last_pos + 1)
          (mid_pos (scan lib dens) + step))) ∧
    ((countLoopDays (mid_pos (scan lib dens)) (mid_pos (scan lib dens) + 1)
        (scan lib dens).first_pos).Nodup ∧
      (countLoopDays (scan lib dens).last_pos ((scan lib dens).last_pos + 1)
        (mid_pos (scan lib dens) + step)).Nodup) ∧
    ((countLoopDays (mid_pos (scan lib dens)) (mid_pos (scan lib dens) + 1)
        (scan lib dens).first_pos).length =
      (mid_pos (scan lib dens) - (scan lib dens).first_pos) / step + 1 ∧
     (countLoopDays (scan lib dens).last_pos ((scan lib dens).last_pos + 1)
        (mid_pos (scan lib dens) + step)).length =
      ((scan lib dens).last_pos - mid_pos (scan lib dens)) / step ∧
     (mid_pos (scan lib dens) - (scan lib dens).first_pos) / step + 1 +
        ((scan lib dens).last_pos - mid_pos (scan lib dens)) / step =
      ((scan lib dens).last_pos - (scan lib dens).first_pos) / step + 1) := by
  obtain ⟨_, hl2, _, hf2, hfl⟩ := scan_pos lib dens
  have hFe : (scan lib dens).first_pos % 2 = 0 := by
    rcases hf2 with h | ⟨h, _⟩
    · rw [h]
    · exact h
  have hLe : (scan lib dens).last_pos % 2 = 0 := by
    rcases hl2 with h | ⟨h, _⟩
    · rw [h]
    · exact h
  have hM : mid_pos (scan lib dens) =
      ((scan lib dens).first_pos + (scan lib dens).last_pos) / 2 / 2 * 2 := by
    simp [mid_pos, start, step]
  generalize mid_pos (scan lib dens) = M at hM
  generalize (scan lib dens).first_pos = F at *
  generalize (scan lib dens).last_pos = L at *
  have hm1 := fun x => mem_countLoopDays M (M + 1) F x (by omega)
  have hm2 := fun x => mem_countLoopDays L (L + 1) (M + step) x (by simp only [step]; omega)
  simp only [step] at hm2 ⊢
  refine ⟨⟨by omega, by omega, fun x hx1 hx2 => by omega⟩, ⟨by omega, by omega⟩, ?_, ?_, ?_, ?_,
    ⟨(countLoopDays_sorted M (M + 1) F).1.nodup, (countLoopDays_sorted L (L + 1) (M + 2)).1.nodup⟩,
    ?_, ?_, by omega⟩
  · intro x
    rw [hm1 x]
    omega
  · intro x
    rw [hm2 x]
    omega
  · intro x
    rw [hm1 x, hm2 x]
    omega
  · intro x
    rw [hm1 x, hm2 x]
    omega
  · rw [length_countLoopDays M (M + 1) F (by omega), if_pos (by omega)]
  · rw [length_countLoopDays L (L + 1) (M + 2) (by omega)]
    split <;> omega

/-- C12. For every run of `calc` (in particular every run reaching the split computation):
`mid_pos` is the largest even day not exceeding `(first_pos + last_pos)/2`;
`first_pos <= mid_pos <= last_pos`; the first proportion loop visits exactly the sampled days
`first_pos .. mid_pos` and the second exactly the sampled days `mid_pos + 2 .. last_pos`;
every sampled day of `[first_pos, last_pos]` is visited by one of the two loops and none by
both; the denominators `(mid_pos - first_pos)/2 + 1` and `(last_pos - mid_pos)/2` are the
numbers of days the two loops visit, and their sum is `(last_pos - first_pos)/2 + 1`; in a run
that reaches the split computation (one with a recorded maximum) `prop_pos_1st[n]` and
`prop_pos_2nd[n]` are the number of days of the half above the detection limit divided by
the number of days of the half. -/
theorem calc_split_halves (lib : NumLib) (dens : List ℚ) :
    (mid_pos (scan lib dens) % 2 = 0 ∧
      mid_pos (scan lib dens) ≤ ((scan lib dens).first_pos + (scan lib dens).last_pos) / 2 ∧
      ∀ x, x % 2 = 0 → x ≤ ((scan lib dens).first_pos + (scan lib dens).last_pos) / 2 →
        x ≤ mid_pos (scan lib dens)) ∧
    ((scan lib dens).first_pos ≤ mid_pos (scan lib dens) ∧
      mid_pos (scan lib dens) ≤ (scan lib dens).last_pos) ∧
    (∀ x, x ∈ countLoopDays (mid_pos (scan lib dens)) (mid_pos (scan lib dens) + 1)
        (scan lib dens).first_pos ↔
      x % 2 = 0 ∧ (scan lib dens).first_pos ≤ x ∧ x ≤ mid_pos (scan lib dens)) ∧
    (∀ x, x ∈ countLoopDays (scan lib dens).last_pos ((scan lib dens).last_pos + 1)
        (mid_pos (scan lib dens) + step) ↔
      x % 2 = 0 ∧ mid_pos (scan lib dens) + 2 ≤ x ∧ x ≤ (scan lib dens).last_pos) ∧
    (∀ x, x % 2 = 0 ∧ (scan lib dens).first_pos ≤ x ∧ x ≤ (scan lib dens).last_pos ↔
      (x ∈ countLoopDays (mid_pos (scan lib dens)) (mid_pos (scan lib dens) + 1)
          (scan lib dens).first_pos ∨
        x ∈ countLoopDays (scan lib dens).last_pos ((scan lib dens).last_pos + 1)
          (mid_pos (scan lib dens) + step))) ∧
    (∀ x, ¬ (x ∈ countLoopDays (mid_pos (scan lib dens)) (mid_pos (scan lib dens) + 1)
          (scan lib dens).first_pos ∧
        x ∈ countLoopDays (scan lib dens).last_pos ((scan lib dens).last_pos + 1)
          (mid_pos (scan lib dens) + step))) ∧
    ((countLoopDays (mid_pos (scan lib dens)) (mid_pos (scan lib dens) + 1)
        (scan lib dens).first_pos).Nodup ∧
      (countLoopDays (scan lib dens).last_pos ((scan lib dens).last_pos + 1)
        (mid_pos (scan lib dens) + step)).Nodup) ∧
    ((countLoopDays (mid_pos (scan lib dens)) (mid_pos (scan lib dens) + 1)
        (scan lib dens).first_pos).length =
      (mid_pos (scan lib dens) - (scan lib dens).first_pos) / step + 1 ∧
     (countLoopDays (scan lib dens).last_pos ((scan lib dens).last_pos + 1)
        (mid_pos (scan lib dens) + step)).length =
      ((scan lib dens).last_pos - mid_pos (scan lib dens)) / step ∧
     (mid_pos (scan lib dens) - (scan lib dens).first_pos) / step + 1 +
        ((scan lib dens).last_pos - mid_pos (scan lib dens)) / step =
      ((scan lib dens).last_pos - (scan lib dens).first_pos) / step + 1) ∧
    ((scan lib dens).maxima_t.length ≠ 0 → ∀ (st : MolInfStats) (n : Nat),
      (st.calc lib n dens).prop_pos_1st = List.set st.prop_pos_1st n
        (Dbl.div
          (((countLoopDays (mid_pos (scan lib dens)) (mid_pos (scan lib dens) + 1)
            (scan lib dens).first_pos).countP
              (fun x => decide (detect_lim < dens.getD x 0)) : Nat) : ℚ)
          (((countLoopDays (mid_pos (scan lib dens)) (mid_pos (scan lib dens) + 1)
            (scan lib dens).first_pos).length : Nat) : ℚ)) ∧
      (st.calc lib n dens).prop_pos_2nd = List.set st.prop_pos_2nd n
        (Dbl.div
          (((countLoopDays (scan lib dens).last_pos ((scan lib dens).last_pos + 1)
            (mid_pos (scan lib dens) + step)).countP
              (fun x => decide (detect_lim < dens.getD x 0)) : Nat) : ℚ)
          (((countLoopDays (scan lib dens).last_pos ((scan lib dens).last_pos + 1)
            (mid_pos (scan lib dens) + step)).length : Nat) : ℚ))) := by
  obtain ⟨a1, a2, a3, a4, a5, a6, a7, a8⟩ := split_halves lib dens
  refine ⟨a1, a2, a3, a4, a5, a6, a7, a8, ?_⟩
  obtain ⟨hfm0, hml0, _⟩ := scan_first_mid_last lib dens
  have hlen1 : (countLoopDays (mid_pos (scan lib dens)) (mid_pos (scan lib dens) + 1)
      (scan lib dens).first_pos).length =
      (mid_pos (scan lib dens) - (scan lib dens).first_pos) / step + 1 := by
    rw [length_countLoopDays _ _ _ (by omega), if_pos hfm0]
    rfl
  have hpar : mid_pos (scan lib dens) % 2 = 0 := by
    simp only [mid_pos, start, step]
    omega
  have hpar2 : (scan lib dens).last_pos % 2 = 0 := by
    rcases (scan_pos lib dens).2.1 with h | ⟨h, _⟩
    · rw [h]
    · exact h
  have hlen2 : (countLoopDays (scan lib dens).last_pos ((scan lib dens).last_pos + 1)
      (mid_pos (scan lib dens) + step)).length =
      ((scan lib dens).last_pos - mid_pos (scan lib dens)) / step := by
    rw [length_countLoopDays _ _ _ (by simp only [step]; omega)]
    simp only [step]
    split <;> omega
  intro hk st n
  obtain ⟨hp1, hp2⟩ := calc_prop_pos lib st n dens hk
  rw [hp1, hp2, countLoop_eq_countP, countLoop_eq_countP, zero_add, zero_add, hlen1, hlen2]
  exact ⟨rfl, rfl⟩

/-- Witness for C12: samples `0, 5, 20, 6, 1` at days `0 .. 8`; the window is `2 .. 8`, split
at `mid_pos = 4` into the days `2, 4` and `6, 8`. -/
theorem calc_split_halves_witness :
    (scan nanLib [0, 0, 5, 0, 20, 0, 6, 0, 1]).maxima_t.length ≠ 0 ∧
    mid_pos (scan nanLib [0, 0, 5, 0, 20, 0, 6, 0, 1]) = 4 ∧
    countLoopDays (mid_pos (scan nanLib [0, 0, 5, 0, 20, 0, 6, 0, 1]))
      (mid_pos (scan nanLib [0, 0, 5, 0, 20, 0, 6, 0, 1]) + 1)
      (scan nanLib [0, 0, 5, 0, 20, 0, 6, 0, 1]).first_pos = [2, 4] ∧
    countLoopDays (scan nanLib [0, 0, 5, 0, 20, 0, 6, 0, 1]).last_pos
      ((scan nanLib [0, 0, 5, 0, 20, 0, 6, 0, 1]).last_pos + 1)
      (mid_pos (scan nanLib [0, 0, 5, 0, 20, 0, 6, 0, 1]) + step) = [6, 8] ∧
    ((MolInfStats.ctor 1).calc nanLib 0 [0, 0, 5, 0, 20, 0, 6, 0, 1]).prop_pos_1st =
      List.set (MolInfStats.ctor 1).prop_pos_1st 0
        (Dbl.div
          (((countLoopDays (mid_pos (scan nanLib [0, 0, 5, 0, 20, 0, 6, 0, 1]))
            (mid_pos (scan nanLib [0, 0, 5, 0, 20, 0, 6, 0, 1]) + 1)
            (scan nanLib [0, 0, 5, 0, 20, 0, 6, 0, 1]).first_pos).countP
              (fun x => decide (detect_lim <
                ([0, 0, 5, 0, 20, 0, 6, 0, 1] : List ℚ).getD x 0)) : Nat) : ℚ)
          (((countLoopDays (mid_pos (scan nanLib [0, 0, 5, 0, 20, 0, 6, 0, 1]))
            (mid_pos (scan nanLib [0, 0, 5, 0, 20, 0, 6, 0, 1]) + 1)
            (scan nanLib [0, 0, 5, 0, 20, 0, 6, 0, 1]).first_pos).length : Nat) : ℚ)) := by
  have hk : (scan nanLib [0, 0, 5, 0, 20, 0, 6, 0, 1]).maxima_t.length ≠ 0 := by decide
  exact ⟨hk, by decide, by decide, by decide,
    ((calc_split_halves nanLib [0, 0, 5, 0, 20, 0, 6, 0, 1]).2.2.2.2.2.2.2.2 hk
      (MolInfStats.ctor 1) 0).1⟩

end UnitTest

/-! ## Claims on the order of the percentile indices -/

namespace UnitTest

/-- C13. For an array size `N >= 1` with `19*(N-1)+10` within `size_t`, the five percentile
indices of `write` (and of `compare` and `print`, which compute the same) are ordered and
valid: `0 <= c5 <= q1 <= med <= q3 <= c95 <= N-1`; hence for every array `s` of size `N`
sorted ascending under a comparison `le` (`s[i] <= s[j]` whenever `i <= j`), such as the
`<=` of `double` or of `int`, the five values written per row satisfy
`s[c5] <= s[q1] <= s[med] <= s[q3] <= s[c95]`. -/
theorem percentile_indices_ordered (st : MolInfStats) (hN : 1 ≤ st.init_slope.length)
    (hfit : 19 * (st.init_slope.length - 1) + 10 < SIZE_T) :
    (0 ≤ st.write_idx.c5 ∧ st.write_idx.c5 ≤ st.write_idx.q1 ∧
      st.write_idx.q1 ≤ st.write_idx.med ∧ st.write_idx.med ≤ st.write_idx.q3 ∧
      st.write_idx.q3 ≤ st.write_idx.c95 ∧ st.write_idx.c95 ≤ st.init_slope.length - 1) ∧
    st.compare_idx = st.write_idx ∧ st.print_idx = st.write_idx ∧
    (∀ (α : Type) (le : α → α → Prop) (s : List α) (d : α),
      s.length = st.init_slope.length →
      (∀ i j, i ≤ j → j < s.length → le (s.getD i d) (s.getD j d)) →
      (MOL_WRITE_STAT st.write_idx s d).Chain' le) := by
  have hidx : st.write_idx = _ := print_idx_eq st hN hfit
  have hord : st.write_idx.c5 ≤ st.write_idx.q1 ∧
      st.write_idx.q1 ≤ st.write_idx.med ∧ st.write_idx.med ≤ st.write_idx.q3 ∧
      st.write_idx.q3 ≤ st.write_idx.c95 ∧ st.write_idx.c95 ≤ st.init_slope.length - 1 := by
    rw [hidx]
    dsimp only
    omega
  refine ⟨⟨Nat.zero_le _, hord⟩, rfl, rfl, ?_⟩
  intro α le s d hlen hsorted
  obtain ⟨h1, h2, h3, h4, h5⟩ := hord
  have hc95 : st.write_idx.c95 < s.length := by omega
  simp only [MOL_WRITE_STAT, List.chain'_cons, List.chain'_singleton, and_true]
  exact ⟨hsorted _ _ h1 (by omega), hsorted _ _ h2 (by omega), hsorted _ _ h3 (by omega),
    hsorted _ _ h4 hc95⟩

/-- Witness for C13: a statistic set of three runs and the sorted array `1, 2, 5` of `double`
under the IEEE comparison. -/
theorem percentile_indices_ordered_witness :
    1 ≤ (MolInfStats.ctor 3).init_slope.length ∧
    19 * ((MolInfStats.ctor 3).init_slope.length - 1) + 10 < SIZE_T ∧
    (∀ i j, i ≤ j → j < [Dbl.fin 1, Dbl.fin 2, Dbl.fin 5].length →
      Dbl.le ([Dbl.fin 1, Dbl.fin 2, Dbl.fin 5].getD i Dbl.nan)
        ([Dbl.fin 1, Dbl.fin 2, Dbl.fin 5].getD j Dbl.nan) = true) ∧
    (MOL_WRITE_STAT (MolInfStats.ctor 3).write_idx [Dbl.fin 1, Dbl.fin 2, Dbl.fin 5]
      Dbl.nan).Chain' (fun a b => Dbl.le a b = true) ∧
    (MolInfStats.ctor 3).write_idx.c95 ≤ (MolInfStats.ctor 3).init_slope.length - 1 := by
  have h1 : 1 ≤ (MolInfStats.ctor 3).init_slope.length := by decide
  have h2 : 19 * ((MolInfStats.ctor 3).init_slope.length - 1) + 10 < SIZE_T := by decide
  have hs : ∀ i j, i ≤ j → j < [Dbl.fin 1, Dbl.fin 2, Dbl.fin 5].length →
      Dbl.le ([Dbl.fin 1, Dbl.fin 2, Dbl.fin 5].getD i Dbl.nan)
        ([Dbl.fin 1, Dbl.fin 2, Dbl.fin 5].getD j Dbl.nan) = true := by
    intro i j hij hj
    have hj3 : j < 3 := hj
    interval_cases j <;> interval_cases i <;> decide
  have h := percentile_indices_ordered (MolInfStats.ctor 3) h1 h2
  exact ⟨h1, h2, hs, h.2.2.2 Dbl (fun a b => Dbl.le a b = true) _ Dbl.nan rfl hs, h.1.2.2.2.2.2⟩

end UnitTest

/-! ## Claims on the driving loops of `capture` and `testDensities` -/

namespace UnitTest

/-- The state and the log after `j` successive `update` calls of the logged harness: the state
is that of the plain harness, and the log has gained the `j` calls with their times and
results. -/
theorem nthUpdate_logged {σ : Type} (H : Harness σ) :
    ∀ (j : Nat) (inf : σ) (l0 : List (Int × Bool)) (now : Int),
      nthUpdate H.logged j (inf, l0) now =
        (nthUpdate H j inf now,
          l0 ++ (List.range j).map (fun (i : Nat) =>
            (now + (i : Int) * H.oneDay,
              (H.update (nthUpdate H i inf now) (now + (i : Int) * H.oneDay)).1))) := by
  intro j
  induction j with
  | zero =>
    intro inf l0 now
    simp [nthUpdate]
  | succ j ih =>
    intro inf l0 now
    have hstep : nthUpdate H.logged (j + 1) (inf, l0) now =
        nthUpdate H.logged j ((H.update inf now).2, l0 ++ [(now, (H.update inf now).1)])
          (now + H.oneDay) := rfl
    rw [hstep, ih, List.range_succ_eq_map, List.map_cons, List.map_map, List.append_assoc]
    refine Prod.ext rfl ?_
    simp only [List.singleton_append, Nat.cast_zero, zero_mul, add_zero, nthUpdate]
    congr 2
    apply List.map_congr_left
    intro i _
    simp only [Function.comp, nthUpdate, Nat.cast_succ]
    rw [show now + H.oneDay + (i : Int) * H.oneDay = now + ((i : Int) + 1) * H.oneDay by ring]

end UnitTest

namespace UnitTest

theorem nthResult_zero {σ : Type} (H : Harness σ) (inf : σ) (now : Int) :
    nthResult H inf now 0 = (H.update inf now).1 := by
  simp [nthResult, nthUpdate]

theorem nthResult_succ {σ : Type} (H : Harness σ) (inf : σ) (now : Int) (i : Nat) :
    nthResult H inf now (i + 1) = nthResult H (H.update inf now).2 (now + H.oneDay) i := by
  simp only [nthResult, nthUpdate, Nat.cast_succ]
  rw [show now + ((i : Int) + 1) * H.oneDay = now + H.oneDay + (i : Int) * H.oneDay by ring]

/-- The results of the logged harness are those of the plain harness. -/
theorem nthResult_logged {σ : Type} (H : Harness σ) (inf : σ) (l0 : List (Int × Bool))
    (now : Int) (i : Nat) : nthResult H.logged (inf, l0) now i = nthResult H inf now i := by
  simp only [nthResult, nthUpdate_logged]
  rfl

/-- The log after `j` calls, in terms of the results of the calls. -/
theorem nthUpdate_logged_log {σ : Type} (H : Harness σ) (j : Nat) (inf : σ)
    (l0 : List (Int × Bool)) (now : Int) :
    (nthUpdate H.logged j (inf, l0) now).2 =
      l0 ++ (List.range j).map (fun (i : Nat) =>
        (now + (i : Int) * H.oneDay, nthResult H inf now i)) := by
  rw [nthUpdate_logged]
  rfl

/-- The loop of `testDensities`, when it ends: it made `k + 1` `update` calls on consecutive
days, the first `k` returned false, and unless the test was aborted the last returned true. -/
theorem testDensitiesLoop_trace {σ : Type} (H : Harness σ) (ab : Bool) (dens : List ℚ) :
    ∀ fuel inf now day cmp r, testDensitiesLoop H ab dens fuel inf now day cmp = some r →
      ∃ k, k < fuel ∧ (∀ i, i < k → nthResult H inf now i = false) ∧
        r.inf = nthUpdate H (k + 1) inf now ∧
        (r.aborted = false → nthResult H inf now k = true) := by
  intro fuel
  induction fuel with
  | zero =>
    intro inf now day cmp r h
    simp [testDensitiesLoop] at h
  | succ f ih =>
    intro inf now day cmp r h
    have hrec : ∀ day' cmp', (H.update inf now).1 = false →
        testDensitiesLoop H ab dens f (H.update inf now).2 (now + H.oneDay) day' cmp' = some r →
        ∃ k, k < f + 1 ∧ (∀ i, i < k → nthResult H inf now i = false) ∧
          r.inf = nthUpdate H (k + 1) inf now ∧
          (r.aborted = false → nthResult H inf now k = true) := by
      intro day' cmp' hu h'
      obtain ⟨k, hk, hf, hw, ht⟩ := ih _ _ _ _ _ h'
      refine ⟨k + 1, by omega, ?_, hw, ?_⟩
      · intro i hi
        cases i with
        | zero => rw [nthResult_zero]; exact hu
        | succ j => rw [nthResult_succ]; exact hf j (by omega)
      · intro ha
        rw [nthResult_succ]
        exact ht ha
    have hend : ∀ day' cmp' a, ((H.update inf now).1 = true ∨ a = true) →
        r = { inf := (H.update inf now).2, day := day', compared := cmp', aborted := a } →
        ∃ k, k < f + 1 ∧ (∀ i, i < k → nthResult H inf now i = false) ∧
          r.inf = nthUpdate H (k + 1) inf now ∧
          (r.aborted = false → nthResult H inf now k = true) := by
      intro day' cmp' a hu hr
      refine ⟨0, by omega, fun i hi => absurd hi (Nat.not_lt_zero i), by rw [hr]; rfl, ?_⟩
      intro ha
      rw [hr] at ha
      rw [nthResult_zero]
      rcases hu with hu | hu
      · exact hu
      · simp only at ha
        rw [hu] at ha
        exact absurd ha (by decide)
    simp only [testDensitiesLoop] at h
    split at h
    · split at h
      · exact hend _ _ true (Or.inr rfl) (Option.some.inj h).symm
      · split at h
        · rename_i hu
          exact hrec _ _ (by simpa using hu) h
        · rename_i hu
          exact hend _ _ false (Or.inl (by simpa using hu)) (Option.some.inj h).symm
    · split at h
      · rename_i hu
        exact hrec _ _ (by simpa using hu) h
      · rename_i hu
        exact hend _ _ false (Or.inl (by simpa using hu)) (Option.some.inj h).symm

/-- The loop of `capture` ends once an `update` call within its bound returns true. -/
theorem captureLoop_isSome {σ : Type} (H : Harness σ) :
    ∀ fuel inf now acc k, k < fuel → (∀ i, i < k → nthResult H inf now i = false) →
      nthResult H inf now k = true → (captureLoop H fuel inf now acc).isSome = true := by
  intro fuel
  induction fuel with
  | zero =>
    intro inf now acc k hk
    omega
  | succ f ih =>
    intro inf now acc k hk hf ht
    simp only [captureLoop]
    split
    · rename_i hu
      have hu' : (H.update inf now).1 = false := by simpa using hu
      cases k with
      | zero =>
        rw [nthResult_zero, hu'] at ht
        exact absurd ht (by decide)
      | succ j =>
        apply ih _ _ _ j (by omega)
        · intro i hi
          rw [← nthResult_succ]
          exact hf (i + 1) (by omega)
        · rw [← nthResult_succ]
          exact ht
    · rfl

/-- The loop of `testDensities` ends once an `update` call within its bound returns true. -/
theorem testDensitiesLoop_isSome {σ : Type} (H : Harness σ) (ab : Bool) (dens : List ℚ) :
    ∀ fuel inf now day cmp k, k < fuel → (∀ i, i < k → nthResult H inf now i = false) →
      nthResult H inf now k = true →
      (testDensitiesLoop H ab dens fuel inf now day cmp).isSome = true := by
  intro fuel
  induction fuel with
  | zero =>
    intro inf now day cmp k hk
    omega
  | succ f ih =>
    intro inf now day cmp k hk hf ht
    have hrec : ∀ day' cmp', (H.update inf now).1 = false →
        (testDensitiesLoop H ab dens f (H.update inf now).2 (now + H.oneDay) day'
          cmp').isSome = true := by
      intro day' cmp' hu'
      cases k with
      | zero =>
        rw [nthResult_zero, hu'] at ht
        exact absurd ht (by decide)
      | succ j =>
        apply ih _ _ _ _ j (by omega)
        · intro i hi
          rw [← nthResult_succ]
          exact hf (i + 1) (by omega)
        · rw [← nthResult_succ]
          exact ht
    simp only [testDensitiesLoop]
    split
    · split
      · rfl
      · split
        · rename_i hu
          exact hrec _ _ (by simpa using hu)
        · rfl
    · split
      · rename_i hu
        exact hrec _ _ (by simpa using hu)
      · rfl

end UnitTest

namespace UnitTest

/-- C11. For every infection driven by the loop of `capture` or of `testDensities`, as seen in
the log of its `update` calls: the calls are made at the times `ts0, ts0 + oneDay, ..`, one
per day; every call but the last returned false, so no call follows a call that returned true;
the loop of `capture` ends with the call that returned true, and so does the loop of
`testDensities` unless the test was aborted by its `ETS_ASSERT_LESS_THAN`; `capture` has
recorded exactly one density for each call that returned false, read right after that call,
and none for the call that returned true.  Both loops do end once a call within the iteration
bound returns true. -/
theorem update_calls_stop_at_extinction {σ : Type} (H : Harness σ) (fuel : Nat) (w : σ)
    (l0 : List (Int × Bool)) :
    (∀ dens w1 log, captureDens H.logged fuel (w, l0) = some (dens, (w1, log)) →
      ∃ k, k < fuel ∧
        log = (List.range (k + 1)).map (fun (i : Nat) =>
          (H.ts0 + (i : Int) * H.oneDay, decide (i = k))) ∧
        dens = (List.range k).map (fun (i : Nat) =>
          H.getDensity (nthUpdate H (i + 1) (H.construct w) H.ts0))) ∧
    (∀ abortTestOnFail file r,
      testDensities H.logged abortTestOnFail file fuel (w, l0) = some r →
      ∃ k, k < fuel ∧ ∃ b : Bool,
        r.inf.2 = (List.range (k + 1)).map (fun (i : Nat) =>
          (H.ts0 + (i : Int) * H.oneDay, decide (i = k) && b)) ∧
        (r.aborted = false → b = true)) ∧
    (∀ k, k < fuel → (∀ i, i < k → nthResult H (H.construct w) H.ts0 i = false) →
      nthResult H (H.construct w) H.ts0 k = true →
      (captureDens H.logged fuel (w, l0)).isSome = true ∧
      ∀ abortTestOnFail file,
        (testDensities H.logged abortTestOnFail file fuel (w, l0)).isSome = true) := by
  have hlogmap : ∀ (k : Nat) (b : Bool),
      (∀ i, i < k → nthResult H (H.construct w) H.ts0 i = false) →
      nthResult H (H.construct w) H.ts0 k = b →
      (nthUpdate H.logged (k + 1) (H.construct w, []) H.ts0).2 =
        (List.range (k + 1)).map (fun (i : Nat) =>
          (H.ts0 + (i : Int) * H.oneDay, decide (i = k) && b)) := by
    intro k b hf hb
    rw [nthUpdate_logged_log, List.nil_append]
    apply List.map_congr_left
    intro i hi
    rw [List.mem_range] at hi
    by_cases hik : i = k
    · subst hik
      simp [hb]
    · rw [hf i (by omega)]
      simp [hik]
  refine ⟨?_, ?_, ?_⟩
  · intro dens w1 log h
    obtain ⟨k, hk, hd, hf, ht, hw⟩ := captureLoop_trace H.logged _ _ _ _ _ _ h
    have hf' : ∀ i, i < k → nthResult H (H.construct w) H.ts0 i = false := by
      intro i hi
      rw [← nthResult_logged H (H.construct w) [] H.ts0 i]
      exact hf i hi
    have ht' : nthResult H (H.construct w) H.ts0 k = true := by
      rw [← nthResult_logged H (H.construct w) [] H.ts0 k]
      exact ht
    refine ⟨k, hk, ?_, ?_⟩
    · have hlog : log = (nthUpdate H.logged (k + 1) (H.construct w, []) H.ts0).2 :=
        congrArg (fun p => p.2) hw
      rw [hlog, hlogmap k true hf' ht']
      apply List.map_congr_left
      intro i _
      simp
    · rw [hd, List.nil_append]
      apply List.map_congr_left
      intro i _
      show H.getDensity (nthUpdate H.logged (i + 1) (H.construct w, []) H.ts0).1 = _
      rw [nthUpdate_logged]
  · intro ab file r h
    obtain ⟨k, hk, hf, hw, ht⟩ := testDensitiesLoop_trace H.logged ab file _ _ _ _ _ _ h
    have hf' : ∀ i, i < k → nthResult H (H.construct w) H.ts0 i = false := by
      intro i hi
      rw [← nthResult_logged H (H.construct w) [] H.ts0 i]
      exact hf i hi
    refine ⟨k, hk, nthResult H (H.construct w) H.ts0 k, ?_, ?_⟩
    · have hlog : r.inf.2 = (nthUpdate H.logged (k + 1) (H.construct w, []) H.ts0).2 :=
        congrArg (fun p => p.2) hw
      rw [hlog, hlogmap k _ hf' rfl]
    · intro ha
      rw [← nthResult_logged H (H.construct w) [] H.ts0 k]
      exact ht ha
  · intro k hk hf ht
    have hf' : ∀ i, i < k → nthResult H.logged (H.construct w, []) H.ts0 i = false := by
      intro i hi
      rw [nthResult_logged]
      exact hf i hi
    have ht' : nthResult H.logged (H.construct w, []) H.ts0 k = true := by
      rw [nthResult_logged]
      exact ht
    exact ⟨captureLoop_isSome H.logged _ _ _ _ k hk hf' ht',
      fun ab file => testDensitiesLoop_isSome H.logged ab file _ _ _ _ _ k hk hf' ht'⟩

/-- Witness for C11: the infection `latentInfection` driven by both loops; its `update` call
of day `4` is the first to return true. -/
theorem update_calls_stop_at_extinction_witness :
    captureDens latentInfection.logged 10 (0, []) =
      some ([0, 0, 8, 4], (0, [(0, false), (1, false), (2, false), (3, false), (4, true)])) ∧
    (∃ k, k < 10 ∧
      [((0 : Int), false), (1, false), (2, false), (3, false), (4, true)] =
        (List.range (k + 1)).map (fun (i : Nat) =>
          (latentInfection.ts0 + (i : Int) * latentInfection.oneDay, decide (i = k))) ∧
      ([0, 0, 8, 4] : List ℚ) = (List.range k).map (fun (i : Nat) =>
        latentInfection.getDensity
          (nthUpdate latentInfection (i + 1) (latentInfection.construct 0)
            latentInfection.ts0))) ∧
    (testDensities latentInfection.logged true [8, 4, 0] 10 (0, [])).isSome = true := by
  have hc : captureDens latentInfection.logged 10 (0, []) =
      some ([0, 0, 8, 4], (0, [(0, false), (1, false), (2, false), (3, false), (4, true)])) := by
    decide
  have h := update_calls_stop_at_extinction latentInfection 10 0 []
  exact ⟨hc, h.1 _ _ _ hc, (h.2.2 4 (by decide) (by decide) (by decide)).2 true [8, 4, 0]⟩

end UnitTest

/-! ## `calc` stays within its arrays -/

namespace UnitTest

theorem rd_eq {α : Type} (a : List α) (i : Nat) (d : α) (h : i < a.length) :
    rd a i = some (a.getD i d) := by
  simp [rd, List.getD_eq_getElem?_getD, List.getElem?_eq_getElem h]

theorem wr_eq {α : Type} (a : List α) (i : Nat) (v : α) (h : i < a.length) :
    wr a i v = some (List.set a i v) := by
  simp [wr, h]

theorem usub_eq (a b : Nat) (h : b ≤ a) : usub a b = some (a - b) := by
  simp [usub, h]

/-- Reads at indices within the bounds all succeed. -/
theorem readAll_eq {α : Type} (a : List α) (d : α) :
    ∀ idxs : List Nat, (∀ i ∈ idxs, i < a.length) →
      readAll a idxs = some (idxs.map (fun i => a.getD i d)) := by
  intro idxs
  induction idxs with
  | nil => intro _; rfl
  | cons i rest ih =>
    intro h
    have hi : i < a.length := h i (List.mem_cons_self i rest)
    have hrest := ih (fun j hj => h j (List.mem_cons_of_mem i hj))
    simp only [readAll, rd_eq a i d hi, hrest, Option.pure_def, Option.bind_eq_bind,
      Option.some_bind, List.map_cons]

/-- Reading a whole array returns it. -/
theorem readAll_range {α : Type} (a : List α) (n : Nat) (hn : n = a.length) :
    readAll a (List.range n) = some a := by
  cases a with
  | nil => subst hn; rfl
  | cons x xs =>
    rw [readAll_eq (x :: xs) x (List.range n) (fun i hi => by
      rw [List.mem_range] at hi; omega)]
    congr 1
    apply List.ext_getElem
    · simp [hn]
    · intro i h1 h2
      simp [List.getD_eq_getElem?_getD, List.getElem?_eq_getElem h2]

/-- One iteration of the first loop reads within `dens`. -/
theorem scanBodyChk_eq (lib : NumLib) (dens : List ℚ) (day : Nat) (s : Scan)
    (hday : day < dens.length) :
    scanBodyChk lib dens day s = some (scanBody lib dens day s) := by
  unfold scanBodyChk scanBody isLocalMax
  simp only [rd_eq dens day 0 hday, Option.pure_def, Option.bind_eq_bind, Option.some_bind]
  by_cases hg : day ≥ step ∧ day + step < dens.length
  · have hb := rd_eq dens (day - step) 0 (by omega : day - step < dens.length)
    have ha := rd_eq dens (day + step) 0 hg.2
    have hu := usub_eq day step hg.1
    by_cases h1 : dens.getD day 0 > dens.getD (day - step) 0
    · by_cases h2 : dens.getD day 0 > dens.getD (day + step) 0
      · simp only [hg, h1, h2, hb, ha, hu, and_self, if_true, Option.some_bind]
      · simp only [hg, h1, h2, hb, ha, hu, and_self, and_false, if_true, if_false,
          Option.some_bind]
    · simp only [hg, h1, hb, ha, hu, and_self, and_false, false_and, if_true, if_false,
        Option.some_bind]
  · have hg' : ¬ (day ≥ step ∧ day + step < dens.length ∧
        dens.getD day 0 > dens.getD (day - step) 0 ∧
        dens.getD day 0 > dens.getD (day + step) 0) := fun hc => hg ⟨hc.1, hc.2.1⟩
    simp only [hg, hg', if_false]

/-- The first loop reads within `dens`, for every series. -/
theorem scanLoopChk_eq (lib : NumLib) (dens : List ℚ) :
    ∀ fuel day s, scanLoopChk lib dens fuel day s = some (scanLoop lib dens fuel day s) := by
  intro fuel
  induction fuel with
  | zero => intro day s; rfl
  | succ f ih =>
    intro day s
    simp only [scanLoopChk, scanLoop]
    split
    · rename_i hday
      rw [scanBodyChk_eq lib dens day s hday]
      exact ih _ _
    · rfl

theorem scanBody_maxima_ld_length (lib : NumLib) (dens : List ℚ) (day : Nat) (s : Scan)
    (h : s.maxima_ld.length = s.maxima_t.length) :
    (scanBody lib dens day s).maxima_ld.length = (scanBody lib dens day s).maxima_t.length := by
  unfold scanBody
  split_ifs <;> simp [h]

/-- The arrays `maxima_t` and `maxima_ld` have the same size. -/
theorem scan_maxima_ld_length (lib : NumLib) (dens : List ℚ) :
    (scan lib dens).maxima_ld.length = (scan lib dens).maxima_t.length := by
  obtain ⟨d, _, h⟩ := scan_invariant lib dens
    (fun _ s => s.maxima_ld.length = s.maxima_t.length) rfl
    (fun d s _ h => scanBody_maxima_ld_length lib dens d s h)
  exact h

end UnitTest

namespace UnitTest

theorem getD_nonneg (dens : List ℚ) (hnn : ∀ x ∈ dens, 0 ≤ x) (i : Nat) :
    0 ≤ dens.getD i 0 := by
  by_cases hi : i < dens.length
  · rw [List.getD_eq_getElem?_getD, List.getElem?_eq_getElem hi, Option.getD_some]
    exact hnn _ (List.getElem_mem hi)
  · rw [List.getD_eq_default _ _ (by omega)]

/-- With non-negative densities, a recorded maximum `m` is a day of positive density within
the series, and `first_pos <= m <= last_pos < dens.size()`. -/
theorem scan_maximum_bounds (lib : NumLib) (dens : List ℚ) (hnn : ∀ x ∈ dens, 0 ≤ x)
    (m : Nat) (hm : m ∈ (scan lib dens).maxima_t) :
    (scan lib dens).first_pos ≤ m ∧ m ≤ (scan lib dens).last_pos ∧
    (scan lib dens).last_pos < dens.length ∧ m + step < dens.length ∧ m % 2 = 0 := by
  obtain ⟨hl1, hl2, hf1, _, _⟩ := scan_pos lib dens
  obtain ⟨hme, _, hmax⟩ := ((scan_maxima_t lib dens).2 m).mp hm
  obtain ⟨h2, h3, h4, _⟩ := hmax
  have hpos : 0 < dens.getD m 0 := lt_of_le_of_lt (getD_nonneg dens hnn (m - step)) h4
  have hlast := hl1 m hme hpos
  have hfirst := (hf1 m hme (by simp only [step] at h2; omega) hpos).2
  refine ⟨hfirst, hlast, ?_, h3, hme⟩
  rcases hl2 with h0 | ⟨_, hp⟩
  · simp only [step] at h2
    omega
  · exact getD_pos_lt_length dens _ hp

/-- The head of a non-empty `maxima_t` is one of the recorded maxima. -/
theorem getD_zero_mem (l : List Nat) (h : l.length ≠ 0) : l.getD 0 0 ∈ l := by
  cases l with
  | nil => exact absurd rfl h
  | cons x xs => simp

/-- The value of `len_init` when `first_pos <= maxima_t[0]`. -/
theorem len_init_eq (s : Scan) (h : s.first_pos ≤ s.maxima_t.getD 0 0) :
    len_init s = (s.maxima_t.getD 0 0 - s.first_pos) / step + 1 := by
  unfold len_init
  have h1 : ((s.maxima_t.getD 0 0 : Int) - (s.first_pos : Int)) =
      ((s.maxima_t.getD 0 0 - s.first_pos : Nat) : Int) := by
    rw [Nat.cast_sub h]
  rw [h1]
  have h2 : (((s.maxima_t.getD 0 0 - s.first_pos : Nat) : Int) / (step : Int) + 1) =
      (((s.maxima_t.getD 0 0 - s.first_pos) / step + 1 : Nat) : Int) := by
    push_cast
    rfl
  rw [h2, Int.toNat_natCast]

/-- The loop that fills `init_t_logdens` stays within `init_t_logdens` and `dens` when each
listed `i` has `2*i + 1` within the array and its day within `dens`. -/
theorem initLoopChk_eq (lib : NumLib) (dens : List ℚ) (first_pos : Nat) :
    ∀ (l : List Nat) (a : List Dbl),
      (∀ i ∈ l, 2 * i + 1 < a.length ∧ step * i + first_pos < dens.length) →
      initLoopChk lib dens first_pos l a =
        some (l.foldl
          (fun a i =>
            let day := step * i + first_pos
            (a.set (2 * i) (Dbl.fin day)).set (2 * i + 1) (lib.log10 (dens.getD day 0)))
          a) := by
  intro l
  induction l with
  | nil => intro a _; rfl
  | cons i rest ih =>
    intro a h
    obtain ⟨h1, h2⟩ := h i (List.mem_cons_self i rest)
    simp only [initLoopChk, List.foldl_cons]
    rw [wr_eq a (2 * i) _ (by omega)]
    simp only [Option.bind_eq_bind, Option.some_bind]
    rw [rd_eq dens _ 0 h2]
    simp only [Option.some_bind]
    rw [wr_eq _ (2 * i + 1) _ (by rw [List.length_set]; exact h1)]
    simp only [Option.some_bind]
    apply ih
    intro j hj
    have := h j (List.mem_cons_of_mem i hj)
    simp only [List.length_set]
    exact this

/-- Writing entries of an array does not change its size. -/
theorem length_foldl_set (f g : Nat → Dbl) :
    ∀ (l : List Nat) (a : List Dbl),
      (l.foldl (fun a i => (a.set (2 * i) (f i)).set (2 * i + 1) (g i)) a).length = a.length := by
  intro l
  induction l with
  | nil => intro a; rfl
  | cons i rest ih =>
    intro a
    rw [List.foldl_cons, ih]
    simp

theorem length_init_t_logdens (lib : NumLib) (dens : List ℚ) (s : Scan) :
    (init_t_logdens lib dens s).length = len_init s * 2 := by
  unfold init_t_logdens
  rw [length_foldl_set (fun i => Dbl.fin ((step * i + s.first_pos : Nat) : ℚ))
    (fun i => lib.log10 (dens.getD (step * i + s.first_pos) 0))]
  simp

/-- The loop over consecutive maxima stays within `maxima_t` when each listed `i` has
`1 <= i < maxima_t.size()`. -/
theorem intervalLoopChk_eq (lib : NumLib) (mt : List Nat) :
    ∀ (l : List Nat) (acc : ℚ × List Dbl), (∀ i ∈ l, 1 ≤ i ∧ i < mt.length) →
      intervalLoopChk lib mt l acc =
        some (l.foldl
          (fun acc i =>
            let interval : ℚ := (mt.getD i 0 : ℚ) - (mt.getD (i - 1) 0 : ℚ)
            (acc.1 * interval, acc.2 ++ [lib.log10 interval]))
          acc) := by
  intro l
  induction l with
  | nil => intro acc _; rfl
  | cons i rest ih =>
    intro acc h
    obtain ⟨h1, h2⟩ := h i (List.mem_cons_self i rest)
    simp only [intervalLoopChk, List.foldl_cons]
    rw [rd_eq mt i 0 h2, usub_eq i 1 h1]
    simp only [Option.bind_eq_bind, Option.some_bind]
    rw [rd_eq mt (i - 1) 0 (by omega)]
    simp only [Option.some_bind]
    exact ih _ (fun j hj => h j (List.mem_cons_of_mem i hj))

/-- A counting loop reads within `dens` when its last day does. -/
theorem countLoopChk_eq (dens : List ℚ) (last : Nat) (hlast : last < dens.length) :
    ∀ fuel day (acc : ℚ),
      countLoopChk dens last fuel day acc = some (countLoop dens last fuel day acc) := by
  intro fuel
  induction fuel with
  | zero => intro day acc; rfl
  | succ f ih =>
    intro day acc
    simp only [countLoopChk, countLoop]
    split
    · rename_i hle
      rw [rd_eq dens day 0 (by omega)]
      simp only [Option.bind_eq_bind, Option.some_bind]
      exact ih _ _
    · rfl

end UnitTest

namespace UnitTest

/-- Every day the initial-slope loop visits is within `dens`. -/
theorem init_days_lt (lib : NumLib) (dens : List ℚ) (hnn : ∀ x ∈ dens, 0 ≤ x)
    (hk : (scan lib dens).maxima_t.length ≠ 0) (i : Nat) (hi : i < len_init (scan lib dens)) :
    step * i + (scan lib dens).first_pos < dens.length := by
  obtain ⟨h1, _, _, h4, _⟩ := scan_maximum_bounds lib dens hnn _ (getD_zero_mem _ hk)
  rw [len_init_eq _ h1] at hi
  simp only [step] at *
  omega

theorem initSlopeChk_eq (lib : NumLib) (dens : List ℚ) (hnn : ∀ x ∈ dens, 0 ≤ x)
    (hk : (scan lib dens).maxima_t.length ≠ 0) :
    initSlopeChk lib dens (scan lib dens) =
      some (lib.gsl_fit_linear
        (strided (init_t_logdens lib dens (scan lib dens)) 0 2 (len_init (scan lib dens)))
        (strided (init_t_logdens lib dens (scan lib dens)) 1 2 (len_init (scan lib dens)))) := by
  obtain ⟨h1, _, _, _, _⟩ := scan_maximum_bounds lib dens hnn _ (getD_zero_mem _ hk)
  have hlen := len_init_eq _ h1
  have hloop := initLoopChk_eq lib dens (scan lib dens).first_pos
    (List.range (len_init (scan lib dens)))
    (List.replicate (len_init (scan lib dens) * 2) (Dbl.fin 0))
    (fun i hi => by
      rw [List.mem_range] at hi
      exact ⟨by rw [List.length_replicate]; omega, init_days_lt lib dens hnn hk i hi⟩)
  have hx := readAll_eq (init_t_logdens lib dens (scan lib dens)) (Dbl.fin 0)
    ((List.range (len_init (scan lib dens))).map (fun i => 0 + i * 2))
    (fun j hj => by
      rw [List.mem_map] at hj
      obtain ⟨i, hi, rfl⟩ := hj
      rw [List.mem_range] at hi
      rw [length_init_t_logdens]
      omega)
  have hy := readAll_eq (init_t_logdens lib dens (scan lib dens)) (Dbl.fin 0)
    ((List.range (len_init (scan lib dens))).map (fun i => 1 + i * 2))
    (fun j hj => by
      rw [List.mem_map] at hj
      obtain ⟨i, hi, rfl⟩ := hj
      rw [List.mem_range] at hi
      rw [length_init_t_logdens]
      omega)
  have hloop' : initLoopChk lib dens (scan lib dens).first_pos
      (List.range (len_init (scan lib dens)))
      (List.replicate (len_init (scan lib dens) * 2) (Dbl.fin 0)) =
      some (init_t_logdens lib dens (scan lib dens)) := hloop
  unfold initSlopeChk
  simp only [rd_eq _ 0 0 (Nat.pos_of_ne_zero hk), usub_eq _ _ h1, Option.bind_eq_bind,
    Option.some_bind, Option.pure_def, ← hlen, hloop', hx, hy, List.map_map]
  rfl

theorem slopeMaxChk_eq (lib : NumLib) (dens : List ℚ) :
    slopeMaxChk lib (scan lib dens) =
      some (lib.gsl_fit_linear ((scan lib dens).maxima_t.map (fun t => Dbl.fin t))
        (scan lib dens).maxima_ld) := by
  unfold slopeMaxChk
  simp only [readAll_range _ _ rfl, readAll_range _ _ (scan_maxima_ld_length lib dens).symm,
    Option.bind_eq_bind, Option.some_bind, Option.pure_def]

theorem intervalsChk_eq (lib : NumLib) (dens : List ℚ)
    (hk : (scan lib dens).maxima_t.length ≠ 0) :
    intervalsChk lib (scan lib dens) =
      some (lib.pow (intervalLoop lib (scan lib dens).maxima_t).1
          (Dbl.div 1 ((scan lib dens).maxima_t.length - 1 : Nat)),
        lib.gsl_stats_sd (intervalLoop lib (scan lib dens).maxima_t).2) := by
  have hloop := intervalLoopChk_eq lib (scan lib dens).maxima_t
    (List.range' 1 ((scan lib dens).maxima_t.length - 1))
    (1, List.replicate ((scan lib dens).maxima_t.length - 1) (Dbl.fin 0))
    (fun i hi => by
      rw [List.mem_range'_1] at hi
      omega)
  have hloop' : intervalLoopChk lib (scan lib dens).maxima_t
      (List.range' 1 ((scan lib dens).maxima_t.length - 1))
      (1, List.replicate ((scan lib dens).maxima_t.length - 1) (Dbl.fin 0)) =
      some (intervalLoop lib (scan lib dens).maxima_t) := hloop
  unfold intervalsChk
  simp only [usub_eq _ 1 (Nat.pos_of_ne_zero hk), Option.bind_eq_bind, Option.some_bind,
    Option.pure_def, hloop', readAll_range _ _ rfl]

theorem propPosChk_eq (lib : NumLib) (dens : List ℚ) (hnn : ∀ x ∈ dens, 0 ≤ x)
    (hk : (scan lib dens).maxima_t.length ≠ 0) :
    propPosChk dens (scan lib dens) =
      some (Dbl.div
          (countLoop dens (mid_pos (scan lib dens)) (mid_pos (scan lib dens) + 1)
            (scan lib dens).first_pos 0)
          (((mid_pos (scan lib dens) - (scan lib dens).first_pos) / step + 1 : Nat) : ℚ),
        Dbl.div
          (countLoop dens (scan lib dens).last_pos ((scan lib dens).last_pos + 1)
            (mid_pos (scan lib dens) + step) 0)
          ((((scan lib dens).last_pos - mid_pos (scan lib dens)) / step : Nat) : ℚ)) := by
  obtain ⟨_, _, hlast, _, _⟩ := scan_maximum_bounds lib dens hnn _ (getD_zero_mem _ hk)
  obtain ⟨hfm, hml, hst⟩ := scan_first_mid_last lib dens
  have hmid : start + (((scan lib dens).first_pos + (scan lib dens).last_pos) / 2 - start) /
      step * step = mid_pos (scan lib dens) := rfl
  have hmidlt : mid_pos (scan lib dens) < dens.length := by omega
  unfold propPosChk
  simp only [usub_eq _ _ hst, Option.bind_eq_bind, Option.some_bind, Option.pure_def, hmid,
    countLoopChk_eq dens _ hmidlt, usub_eq _ _ hfm, countLoopChk_eq dens _ hlast,
    usub_eq _ _ hml]

end UnitTest

namespace UnitTest

/-- The checked `calc` succeeds and agrees with `calc` on non-negative densities. -/
theorem calcChk_eq (lib : NumLib) (st : MolInfStats) (n N : Nat) (dens : List ℚ)
    (hnn : ∀ x ∈ dens, 0 ≤ x) (hn : n < N) (hsz : st.sized N) :
    st.calcChk lib n dens = some (st.calc lib n dens) := by
  obtain ⟨h1, h2, h3, h4, h5, h6, h7, h8, h9⟩ := hsz
  obtain ⟨_, _, _, _, hfl⟩ := scan_pos lib dens
  have hscan : scanLoopChk lib dens dens.length start Scan.init = some (scan lib dens) :=
    scanLoopChk_eq lib dens _ _ _
  unfold MolInfStats.calcChk
  simp only [hscan, Option.bind_eq_bind, Option.some_bind, Option.pure_def, usub_eq _ _ hfl,
    wr_eq st.last_pos_day n _ (by omega), wr_eq st.no_max n _ (by omega)]
  by_cases hk : (scan lib dens).maxima_t.length = 0
  · rw [if_pos hk, calc_of_no_maxima lib st n dens hk]
  · rw [if_neg hk]
    unfold calcTailChk MolInfStats.calc
    simp only [hk, if_false, Option.bind_eq_bind, Option.some_bind, Option.pure_def,
      rd_eq (scan lib dens).maxima_ld 0 Dbl.nan
        (by rw [scan_maxima_ld_length]; exact Nat.pos_of_ne_zero hk),
      wr_eq st.log_1st_max n _ (by omega), initSlopeChk_eq lib dens hnn hk,
      wr_eq st.init_slope n _ (by omega), slopeMaxChk_eq lib dens,
      wr_eq st.slope_max n _ (by omega), intervalsChk_eq lib dens hk,
      wr_eq st.GM_interv n _ (by omega), wr_eq st.SD_log n _ (by omega),
      propPosChk_eq lib dens hnn hk, wr_eq st.prop_pos_1st n _ (by omega),
      wr_eq st.prop_pos_2nd n _ (by omega)]

/-- C14. For every density series `dens` with non-negative entries (the empty one included)
and every run index `n < N` of a statistic set of size `N`: `calc` with every array read and
write and every `size_t` subtraction checked runs to its end and returns what `calc` returns,
so no access is outside its array and no subtraction wraps; `first_pos <= last_pos <
dens.size()` whenever a positive sample exists; and whenever a maximum exists,
`first_pos <= maxima_t[0]` and every day visited by the initial-slope loop and by the two
proportion loops is below `dens.size()`. -/
theorem calc_within_bounds (lib : NumLib) (st : MolInfStats) (n N : Nat) (dens : List ℚ)
    (hnn : ∀ x ∈ dens, 0 ≤ x) (hn : n < N) (hsz : st.sized N) :
    st.calcChk lib n dens = some (st.calc lib n dens) ∧
    ((∃ x, 0 < dens.getD x 0) →
      (scan lib dens).first_pos ≤ (scan lib dens).last_pos ∧
      (scan lib dens).last_pos < dens.length) ∧
    ((scan lib dens).maxima_t.length ≠ 0 →
      (scan lib dens).first_pos ≤ (scan lib dens).maxima_t.getD 0 0 ∧
      (∀ i, i < len_init (scan lib dens) →
        step * i + (scan lib dens).first_pos < dens.length) ∧
      (∀ x ∈ countLoopDays (mid_pos (scan lib dens)) (mid_pos (scan lib dens) + 1)
        (scan lib dens).first_pos, x < dens.length) ∧
      (∀ x ∈ countLoopDays (scan lib dens).last_pos ((scan lib dens).last_pos + 1)
        (mid_pos (scan lib dens) + step), x < dens.length)) := by
  refine ⟨calcChk_eq lib st n N dens hnn hn hsz, ?_, ?_⟩
  · rintro ⟨x, hx⟩
    obtain ⟨_, hl2, _, _, hfl⟩ := scan_pos lib dens
    refine ⟨hfl, ?_⟩
    rcases hl2 with h0 | ⟨_, hp⟩
    · rw [h0]
      have := getD_pos_lt_length dens x hx
      omega
    · exact getD_pos_lt_length dens _ hp
  · intro hk
    obtain ⟨h1, _, hlast, _, _⟩ := scan_maximum_bounds lib dens hnn _ (getD_zero_mem _ hk)
    obtain ⟨_, hml, _⟩ := scan_first_mid_last lib dens
    refine ⟨h1, fun i hi => init_days_lt lib dens hnn hk i hi, ?_, ?_⟩
    · intro x hx
      have := ((mem_countLoopDays _ _ _ x (by omega)).mp hx).2.1
      omega
    · intro x hx
      have := ((mem_countLoopDays _ _ _ x (by simp only [step]; omega)).mp hx).2.1
      omega

/-- Witness for C14: run `0` of a one-run statistic set on the non-negative series with
samples `0, 5, 20, 6, 1` at days `0 .. 8`. -/
theorem calc_within_bounds_witness :
    (∀ x ∈ ([0, 0, 5, 0, 20, 0, 6, 0, 1] : List ℚ), 0 ≤ x) ∧ 0 < 1 ∧
    (MolInfStats.ctor 1).sized 1 ∧
    (MolInfStats.ctor 1).calcChk nanLib 0 [0, 0, 5, 0, 20, 0, 6, 0, 1] =
      some ((MolInfStats.ctor 1).calc nanLib 0 [0, 0, 5, 0, 20, 0, 6, 0, 1]) ∧
    (scan nanLib [0, 0, 5, 0, 20, 0, 6, 0, 1]).maxima_t.length ≠ 0 ∧
    (scan nanLib [0, 0, 5, 0, 20, 0, 6, 0, 1]).first_pos ≤
      (scan nanLib [0, 0, 5, 0, 20, 0, 6, 0, 1]).maxima_t.getD 0 0 := by
  have hnn : ∀ x ∈ ([0, 0, 5, 0, 20, 0, 6, 0, 1] : List ℚ), 0 ≤ x := by decide
  have hk : (scan nanLib [0, 0, 5, 0, 20, 0, 6, 0, 1]).maxima_t.length ≠ 0 := by decide
  have h := calc_within_bounds nanLib (MolInfStats.ctor 1) 0 1 [0, 0, 5, 0, 20, 0, 6, 0, 1]
    hnn (by decide) (by decide)
  exact ⟨hnn, by decide, by decide, h.1, hk, (h.2.2 hk).1⟩

end UnitTest

/-! ## Claims on `getCommunityCaseFatalityRate` -/

namespace Clinical

/-- C15. For a case fatality ratio `0 <= c < 1` and an odds-ratio threshold `r > 0`, in exact
arithmetic (any ordered field, the reals included), `getCommunityCaseFatalityRate(c)` returns
`p = c*r / (1 - c + c*r)`; `0 <= p < 1`; `p/(1-p) = r * c/(1-c)`, i.e. the odds of `c` are
multiplied by `r`; it returns `0` for `c = 0`, returns `c` when `r = 1`, and is non-decreasing
in `c` on `[0, 1)`. -/
theorem getCommunityCaseFatalityRate_odds {K : Type} [LinearOrderedField K] (r c : K)
    (hc0 : 0 ≤ c) (hc1 : c < 1) (hr : 0 < r) :
    getCommunityCaseFatalityRate r c = c * r / (1 - c + c * r) ∧
    0 ≤ getCommunityCaseFatalityRate r c ∧ getCommunityCaseFatalityRate r c < 1 ∧
    getCommunityCaseFatalityRate r c / (1 - getCommunityCaseFatalityRate r c) =
      r * (c / (1 - c)) ∧
    getCommunityCaseFatalityRate r 0 = 0 ∧
    getCommunityCaseFatalityRate 1 c = c ∧
    (∀ c' : K, c ≤ c' → c' < 1 →
      getCommunityCaseFatalityRate r c ≤ getCommunityCaseFatalityRate r c') := by
  have h1c : 0 < 1 - c := by linarith
  have hcr : 0 ≤ c * r := mul_nonneg hc0 hr.le
  have hden : 0 < 1 - c + c * r := by linarith
  have hval : getCommunityCaseFatalityRate r c = c * r / (1 - c + c * r) := rfl
  refine ⟨hval, ?_, ?_, ?_, ?_, ?_, ?_⟩
  · rw [hval]
    exact div_nonneg hcr hden.le
  · rw [hval, div_lt_one hden]
    linarith
  · rw [hval]
    have h1p : 1 - c * r / (1 - c + c * r) = (1 - c) / (1 - c + c * r) := by
      field_simp
    rw [h1p]
    field_simp
    ring
  · simp [getCommunityCaseFatalityRate]
  · simp [getCommunityCaseFatalityRate]
  · intro c' hcc' hc'1
    have hden' : 0 < 1 - c' + c' * r := by
      have : 0 ≤ c' * r := mul_nonneg (le_trans hc0 hcc') hr.le
      linarith
    show c * r / (1 - c + c * r) ≤ c' * r / (1 - c' + c' * r)
    rw [div_le_div_iff₀ hden hden']
    have : 0 ≤ (c' - c) * r := mul_nonneg (by linarith) hr.le
    nlinarith

/-- Witness for C15: `c = 1/5`, `r = 3` over the rationals, where the result is `3/7`. -/
theorem getCommunityCaseFatalityRate_odds_witness :
    (0 : ℚ) ≤ 1 / 5 ∧ (1 / 5 : ℚ) < 1 ∧ (0 : ℚ) < 3 ∧
    getCommunityCaseFatalityRate (3 : ℚ) (1 / 5) = 3 / 7 ∧
    getCommunityCaseFatalityRate (3 : ℚ) (1 / 5) /
      (1 - getCommunityCaseFatalityRate (3 : ℚ) (1 / 5)) = 3 * ((1 / 5) / (1 - 1 / 5)) := by
  have h := getCommunityCaseFatalityRate_odds (3 : ℚ) (1 / 5) (by norm_num) (by norm_num)
    (by norm_num)
  refine ⟨by norm_num, by norm_num, by norm_num, ?_, h.2.2.2.1⟩
  rw [h.1]
  norm_num

end Clinical

end OM
